import Mathlib

/-!
Verification development for the theine-core cache engine.

The Rust sources are embedded shallowly:

* `sketch.rs` (`CountMinSketch`): the packed 64-bit words are `Nat` values,
  with masks and shifts exactly as in the source; machine wrap-around is
  written as `% 2 ^ 64` where it matters (`rehash`).
* `metadata.rs` (`Entry`, `MetaData`, `Link`): the arena is a `List Entry`
  addressed by index, the key map an association list (the source's hash map,
  observed through `get`/insert/remove), the intrusive doubly-linked-list
  operations splice `prev`/`next` index fields exactly as the source does.
  A source `panic!` is rendered as `none`/`Option`.
* `tlfu.rs` (`TinyLfu`): this file belongs to a newer generation of the
  repository whose companion `metadata.rs` (with `policy_list_id`,
  `policy_list_index` and a capacity-bounded `List`) is not part of the
  sources; that list type is modelled from the spec (see `TList`).  The
  floating-point hill-climber magnitude is abstracted as an integer input;
  the integer clamp and all list movements are taken from the source.
* `clockpro.rs` (`ClockPro`) and `timerwheel.rs` (`TimerWheel`): the ring
  and the wheel-bucket membership are represented extensionally as lists of
  arena indices in clock order; the pointer-level splicing these lists stand
  for is verified separately on `Link`.  All hand movements, counters and
  tier arithmetic follow the source line by line.  The engine clocks are
  explicit `Nat` parameters (nanoseconds).
-/

namespace Theine

/-! ## sketch.rs -/

/-- Page-class constants from metadata.rs. -/
def COLD_PAGE : Nat := 1

/-- Page-class constant HOT from metadata.rs. -/
def HOT_PAGE : Nat := 2

/-- Page-class constant TEST from metadata.rs. -/
def TEST_PAGE : Nat := 3

/-- Mask of the low bit of every 4-bit counter (sketch.rs `ONE_MASK`). -/
def ONE_MASK : Nat := 0x1111111111111111

/-- Mask clearing the top bit of every 4-bit counter (sketch.rs `RESET_MASK`). -/
def RESET_MASK : Nat := 0x7777777777777777

/-- Wrapping multiply-xor rehash from sketch.rs (`rehash`): the u64
wrap-around of the multiplication is the explicit `% 2 ^ 64`. -/
def rehash (h : Nat) : Nat :=
  let m := (h * 0x94d049bb133111eb) % 2 ^ 64
  m ^^^ (m >>> 31)

/-- Population count of a 64-bit word (`u64::count_ones` in sketch.rs,
applied there to values below `2 ^ 64`): the sum of the 64 low bits. -/
def popCount64 (n : Nat) : Nat :=
  ((List.range 64).map (fun i => (n >>> i) &&& 1)).sum

/-- Value of the 4-bit counter at offset `j` (0 ≤ j < 16) of the packed
64-bit word `w`. -/
def nibble (w j : Nat) : Nat :=
  (w >>> (4 * j)) &&& 15

/-- Number of 4-bit counters of the whole table whose low bit is set (the
quantity the spec calls `popcount(low_bits)`). -/
def lowBitCount (table : List Nat) : Nat :=
  (table.map (fun w => ((List.range 16).map (fun j => nibble w j &&& 1)).sum)).sum

/-- Smallest power of two at least `n`, for `n` of u64 range
(`usize::next_power_of_two` as used in sketch.rs and timerwheel.rs), written
as a fold so that it evaluates by kernel reduction. -/
def nextPow2 (n : Nat) : Nat :=
  (List.range 64).foldl (fun p _ => if p < n then p * 2 else p) 1

/-- CountMinSketch state (sketch.rs): a flat table of 64-bit words, each
holding sixteen 4-bit counters. -/
structure CountMinSketch where
  blockMask : Nat
  table : List Nat
  additions : Nat
  sampleSize : Nat
deriving Repr, DecidableEq

/-- CountMinSketch::new. -/
def CountMinSketch.new (size : Nat) : CountMinSketch :=
  let sketchSize := if size < 64 then 64 else size
  let counterSize := nextPow2 sketchSize
  { blockMask := (counterSize >>> 3) - 1
    table := List.replicate counterSize 0
    additions := 0
    sampleSize := 10 * counterSize }

/-- CountMinSketch::index_of: returns the word index and the counter offset
inside that word. -/
def CountMinSketch.index_of (_s : CountMinSketch) (counterHash block offset : Nat) :
    Nat × Nat :=
  let h := counterHash >>> (offset <<< 3)
  (block + (h &&& 1) + (offset <<< 1), (h >>> 1) &&& 0xf)

/-- CountMinSketch::inc: increment the 4-bit counter at (`index`, `offset`)
unless it is saturated at 15; report whether it changed. -/
def CountMinSketch.inc (s : CountMinSketch) (index offset : Nat) :
    CountMinSketch × Bool :=
  let off := offset <<< 2
  let mask := 0xf <<< off
  if (s.table.getD index 0) &&& mask ≠ mask then
    ({ s with table := s.table.set index (s.table.getD index 0 + (1 <<< off)) }, true)
  else
    (s, false)

/-- CountMinSketch::reset: halve every 4-bit counter and rescale `additions`. -/
def CountMinSketch.reset (s : CountMinSketch) : CountMinSketch :=
  let count := s.table.foldl (fun acc w => acc + popCount64 (w &&& ONE_MASK)) 0
  { s with
    table := s.table.map (fun w => (w >>> 1) &&& RESET_MASK)
    additions := (s.additions - (count >>> 2)) >>> 1 }

/-- The four counter increments of CountMinSketch::add, together with the
`added` flag (whether at least one counter changed). -/
def CountMinSketch.incAll (s : CountMinSketch) (h : Nat) : CountMinSketch × Bool :=
  let counterHash := rehash h
  let block := (h &&& s.blockMask) <<< 3
  let p0 := s.index_of counterHash block 0
  let p1 := s.index_of counterHash block 1
  let p2 := s.index_of counterHash block 2
  let p3 := s.index_of counterHash block 3
  let r0 := s.inc p0.1 p0.2
  let r1 := r0.1.inc p1.1 p1.2
  let r2 := r1.1.inc p2.1 p2.2
  let r3 := r2.1.inc p3.1 p3.2
  (r3.1, r0.2 || r1.2 || r2.2 || r3.2)

/-- CountMinSketch::add: the four increments, then the addition accounting
and the possible reset. -/
def CountMinSketch.add (s : CountMinSketch) (h : Nat) : CountMinSketch :=
  let r := s.incAll h
  if r.2 then
    let s1 : CountMinSketch := { r.1 with additions := r.1.additions + 1 }
    if s1.additions = s1.sampleSize then s1.reset else s1
  else
    r.1

/-- CountMinSketch::count: read one 4-bit counter. -/
def CountMinSketch.count (s : CountMinSketch) (h block offset : Nat) : Nat :=
  let p := s.index_of h block offset
  (s.table.getD p.1 0 >>> (p.2 <<< 2)) &&& 0xf

/-- CountMinSketch::estimate: minimum of the four counters of `h`. -/
def CountMinSketch.estimate (s : CountMinSketch) (h : Nat) : Nat :=
  let counterHash := rehash h
  let block := (h &&& s.blockMask) <<< 3
  min (min (s.count counterHash block 0) (s.count counterHash block 1))
      (min (s.count counterHash block 2) (s.count counterHash block 3))

/-- Position (word index, counter offset) of the k-th of the four counters
that add and estimate touch for hash `h` (CountMinSketch::index_of at the
block of `h`). -/
def counterPosition (s : CountMinSketch) (h k : Nat) : Nat × Nat :=
  s.index_of (rehash h) ((h &&& s.blockMask) <<< 3) k

/-- Value of the k-th counter of hash `h` in the sketch's table. -/
def counterValue (s : CountMinSketch) (h k : Nat) : Nat :=
  nibble (s.table.getD (counterPosition s h k).1 0) (counterPosition s h k).2

/-! ## tlfu.rs: admission and the hill-climber clamp -/

/-- Admission hashdos threshold (tlfu.rs `ADMIT_HASHDOS_THRESHOLD`). -/
def ADMIT_HASHDOS_THRESHOLD : Nat := 6

/-- TinyLfu::admit (tlfu.rs).  The `rand` branch taken when the candidate
frequency exceeds the threshold without beating the victim is represented as
`none` (its outcome depends on the thread RNG); both deterministic branches
return `some`. -/
def tlfuAdmit (sketch : CountMinSketch) (candidate victim : Nat) : Option Bool :=
  let victimFreq := sketch.estimate victim
  let candidateFreq := sketch.estimate candidate
  if candidateFreq > victimFreq then some true
  else if candidateFreq > ADMIT_HASHDOS_THRESHOLD then none
  else some false

/-- Clamp stage of TinyLfu::climb (tlfu.rs).  The f32 hill-climbing step
(`amount as isize` after the decay/step-size arithmetic) is abstracted as the
integer input `amountPre`; the two clamping conditionals are translated
exactly, including the `usize` subtraction `capacity - 1` (the source
requires `capacity ≥ 1`, otherwise that subtraction underflows). -/
def climbClamp (amountPre : Int) (cap : Nat) : Int :=
  let a1 := if 0 < amountPre ∧ (cap : Int) - 1 < amountPre then (cap : Int) else amountPre
  if a1 < 0 ∧ (cap - 1 : Nat) < a1.natAbs then -((cap - 1 : Nat) : Int) else a1

/-! ## timerwheel.rs: tier constants and find_index -/

namespace TimerWheel

/-- Bucket counts per tier (timerwheel.rs `buckets`). -/
def buckets : List Nat := [64, 64, 32, 4, 1]

/-- Tier spans in nanoseconds (timerwheel.rs `spans`): the next powers of two
above 1s, 60s, 1h, 1d, and four times 1d, with the last value repeated. -/
def spans : List Nat :=
  [1073741824, 68719476736, 4398046511104, 140737488355328,
   562949953421312, 562949953421312]

/-- Trailing-zero shifts of the spans (timerwheel.rs `shift`). -/
def shift : List Nat := [30, 36, 42, 47, 49]

/-- TimerWheel::find_index: `duration = expire - nanos`; the first tier `i`
with `duration < spans[i + 1]` owns the entry; otherwise the singleton
(4, 0). -/
def find_index (nanos expire : Nat) : Nat × Nat :=
  let duration := expire - nanos
  match (List.range 5).find? (fun i => duration < spans.getD (i + 1) 0) with
  | some i => (i, (expire >>> shift.getD i 0) &&& (buckets.getD i 0 - 1))
  | none => (4, 0)

/-- Modelled from the spec: the tier-selection rule exactly as the claim and
spec word it — "scan tiers ascending; the first tier whose span strictly
exceeds `duration` owns this entry" — with the same slot formula and the same
(4, 0) overflow fallback.  This is the comparison point for the source's
`find_index` above. -/
def find_bucket_claim (nanos expire : Nat) : Nat × Nat :=
  let duration := expire - nanos
  match (List.range 5).find? (fun i => duration < spans.getD i 0) with
  | some i => (i, (expire >>> shift.getD i 0) &&& (buckets.getD i 0 - 1))
  | none => (4, 0)

end TimerWheel

/-! ## metadata.rs: arena, entries and the intrusive Link -/

/-- Arena entry (metadata.rs `Entry`). -/
structure Entry where
  key : String
  index : Nat
  prev : Nat
  next : Nat
  link_id : Nat
  wheel_link_id : Nat
  wheel_index : Nat × Nat
  wheel_prev : Nat
  wheel_next : Nat
  expire : Nat
  clock_info : Bool × Nat
deriving Repr, DecidableEq

/-- Entry::new: a fresh cold, unlinked entry. -/
def Entry.new (key : String) : Entry :=
  { key := key, index := 0, prev := 0, next := 0, wheel_prev := 0, wheel_next := 0
    link_id := 0, wheel_link_id := 0, wheel_index := (0, 0), expire := 0
    clock_info := (false, COLD_PAGE) }

instance : Inhabited Entry := ⟨Entry.new ""⟩

/-- Arena state (metadata.rs `MetaData`): the hash map is observed as an
association list, the entry vector as a list addressed by index, and the
free-index stack as a list. -/
structure MetaData where
  keys : List (String × Nat)
  data : List Entry
  empty : List Nat
  meta_key_count : Nat
deriving Repr, DecidableEq

/-- Entry at index `i` (the source's `metadata.data[index]`; indices handed
out by the arena are always in range). -/
def MetaData.entryAt (m : MetaData) (i : Nat) : Entry :=
  m.data.getD i default

/-- Replace the entry at index `i` by `f` of it. -/
def MetaData.updateEntry (m : MetaData) (i : Nat) (f : Entry → Entry) : MetaData :=
  { m with data := m.data.set i (f (m.entryAt i)) }

/-- MetaData::get: key-map lookup. -/
def MetaData.get (m : MetaData) (key : String) : Option Nat :=
  (m.keys.find? (fun p => p.1 = key)).map (·.2)

/-- MetaData::remove: unlink the key of entry `index` from the key map and
push the index on the free stack. -/
def MetaData.remove (m : MetaData) (index : Nat) : MetaData :=
  { m with
    keys := m.keys.eraseP (fun p => p.1 = (m.entryAt index).key)
    empty := index :: m.empty }

/-- MetaData::len: number of mapped keys. -/
def MetaData.len (m : MetaData) : Nat := m.keys.length

/-- Rust's `key.starts_with("__root:")` over the character list, so that it
evaluates by kernel reduction. -/
def isRootKey (key : String) : Bool :=
  "__root:".data.isPrefixOf key.data

/-- MetaData::insert_key: build a fresh entry for `key`, reusing a free index
if one is available, and record the key unless it is a root key.  Returns the
new entry's index with the updated arena. -/
def MetaData.insert_key (m : MetaData) (key : String) : Nat × MetaData :=
  match m.empty with
  | i :: rest =>
    let e := { Entry.new key with index := i }
    let m1 := { m with data := m.data.set i e, empty := rest }
    if isRootKey key then (i, m1)
    else (i, { m1 with keys := (key, i) :: m1.keys })
  | [] =>
    let i := m.data.length
    let e := { Entry.new key with index := i }
    let m1 := { m with data := m.data ++ [e] }
    if isRootKey key then (i, m1)
    else (i, { m1 with keys := (key, i) :: m1.keys })

/-- MetaData::get_or_create: index of `key`, creating the entry if absent. -/
def MetaData.get_or_create (m : MetaData) (key : String) : Nat × MetaData :=
  match m.get key with
  | some i => (i, m)
  | none => m.insert_key key

/-- Intrusive list view (metadata.rs `Link`). -/
structure Link where
  id : Nat
  root : Nat
  len : Nat
  capacity : Nat
deriving Repr, DecidableEq

/-- Link::remove: splice `index` out of the policy-side list.  Removing the
root or an entry whose `link_id` does not match is a no-op returning
`none`. -/
def Link.remove (l : Link) (index : Nat) (m : MetaData) :
    Option Nat × Link × MetaData :=
  if index = l.root then (none, l, m)
  else
    let entry := m.entryAt index
    if entry.link_id ≠ l.id then (none, l, m)
    else
      let prev := entry.prev
      let next := entry.next
      let m1 := m.updateEntry prev (fun e => { e with next := next })
      let m2 := m1.updateEntry next (fun e => { e with prev := prev })
      (some entry.index, { l with len := l.len - 1 }, m2)

/-- Link::remove_wheel: splice `index` out of the wheel-side list.  A
mismatched `wheel_link_id` hits the source's `panic!("link id not match")`,
rendered here as `none`; the successful path returns the updated state. -/
def Link.remove_wheel (l : Link) (index : Nat) (m : MetaData) :
    Option (Link × MetaData) :=
  let entry := m.entryAt index
  if entry.wheel_link_id ≠ l.id then none
  else
    let prev := entry.wheel_prev
    let next := entry.wheel_next
    let m1 := m.updateEntry index (fun e =>
      { e with wheel_link_id := 0, wheel_index := (0, 0), wheel_prev := 0, wheel_next := 0 })
    let m2 := m1.updateEntry prev (fun e => { e with wheel_next := next })
    let m3 := m2.updateEntry next (fun e => { e with wheel_prev := prev })
    some ({ l with len := l.len - 1 }, m3)

/-- Link::insert: splice `index` in after `at'`; when the list is full the
tail is unlinked first and returned as the evicted index. -/
def Link.insert (l : Link) (index at' : Nat) (m : MetaData) :
    Option Nat × Link × MetaData :=
  let full := l.len = l.capacity
  let tail := (m.entryAt l.root).prev
  let step1 : Link × MetaData × Nat :=
    if full then
      let r := l.remove tail m
      (r.2.1, r.2.2, tail)
    else (l, m, 0)
  let l1 := step1.1
  let m1 := step1.2.1
  let removed := step1.2.2
  let oldNext := (m1.entryAt at').next
  let m2 := m1.updateEntry at' (fun e => { e with next := index })
  let m3 := m2.updateEntry index (fun e =>
    { e with link_id := l1.id, prev := at', next := oldNext })
  let m4 := m3.updateEntry oldNext (fun e => { e with prev := index })
  let l2 := { l1 with len := l1.len + 1 }
  (if 0 < removed then some removed else none, l2, m4)

/-- Link::insert_before: splice `index` in before `at'`, evicting the tail
first when full. -/
def Link.insert_before (l : Link) (index at' : Nat) (m : MetaData) :
    Option Nat × Link × MetaData :=
  let full := l.len = l.capacity
  let tail := (m.entryAt l.root).prev
  let step1 : Link × MetaData × Nat :=
    if full then
      let r := l.remove tail m
      (r.2.1, r.2.2, tail)
    else (l, m, 0)
  let l1 := step1.1
  let m1 := step1.2.1
  let removed := step1.2.2
  let oldPrev := (m1.entryAt at').prev
  let m2 := m1.updateEntry at' (fun e => { e with prev := index })
  let m3 := m2.updateEntry index (fun e =>
    { e with link_id := l1.id, next := at', prev := oldPrev })
  let m4 := m3.updateEntry oldPrev (fun e => { e with next := index })
  let l2 := { l1 with len := l1.len + 1 }
  (if 0 < removed then some removed else none, l2, m4)

/-- MetaData::new: an empty arena (the size argument only preallocates). -/
def MetaData.new (_size : Nat) : MetaData :=
  { keys := [], data := [], empty := [], meta_key_count := 0 }

/-- Link::new's arena side effects: allocate the root-sentinel entry for link
`id`, self-looped on the policy side for ids below 4 and on the wheel side
otherwise, and count it as a meta key. -/
def MetaData.newRoot (m : MetaData) (id : Nat) : Nat × MetaData :=
  let m1 : MetaData := { m with meta_key_count := m.meta_key_count + 1 }
  let r := m1.insert_key ("__root:" ++ toString id ++ "__")
  let i := r.1
  let m2 := r.2.updateEntry i (fun e =>
    if id < 4 then
      { e with clock_info := (false, 0), link_id := id, wheel_link_id := id, prev := i, next := i }
    else
      { e with clock_info := (false, 0), link_id := id, wheel_link_id := id,
               wheel_prev := i, wheel_next := i })
  (i, m2)

/-! ## Ring order helpers

The CLOCK-Pro ring and the wheel buckets are intrusive circular lists over
the arena; here their membership is represented extensionally as a list of
indices in `next` order, the root sentinel sitting between the last and the
first element.  `ringNext`/`ringPrev` are the source's `entry.next` /
`entry.prev` steps with the root skipped. -/

/-- Successor of `h` in next order, root skipped: the element after `h`, the
head when `h` is last or is the root itself, `root` when the ring is empty. -/
def ringNext (ring : List Nat) (root h : Nat) : Nat :=
  let i := ring.indexOf h
  if i + 1 < ring.length then ring.getD (i + 1) root else ring.getD 0 root

/-- Predecessor of `h` in next order, root skipped. -/
def ringPrev (ring : List Nat) (root h : Nat) : Nat :=
  let i := ring.indexOf h
  if i = 0 ∨ ring.length ≤ i then ring.getD (ring.length - 1) root
  else ring.getD (i - 1) root

/-- Successor of `r` resolved after `r` itself is spliced out (the stale
`next` pointer of a removed entry in the source still names its old
successor, and the root skip then lands on the post-removal head). -/
def ringNextAfterRemoval (ring : List Nat) (root r : Nat) : Nat :=
  let i := ring.indexOf r
  if i + 1 < ring.length then ring.getD (i + 1) root
  else
    match ring.erase r with
    | [] => root
    | x :: _ => x

/-- Splice `index` in just before `at'` (`Link::insert_before` order); when
`at'` is the root the new element becomes the last one. -/
def ringInsertBefore (ring : List Nat) (index at' : Nat) : List Nat :=
  let i := ring.indexOf at'
  if i < ring.length then ring.take i ++ index :: ring.drop i
  else ring ++ [index]

/-! ## timerwheel.rs: wheel state, schedule, deschedule and advance -/

namespace TimerWheel

/-- Identifier of the wheel bucket link at tier `t`, slot `s`: ids are handed
out from 4 upward, tier-major, as in TimerWheel::new. -/
def bucketId (t s : Nat) : Nat :=
  4 + (buckets.take t).sum + s

end TimerWheel

/-- Timer wheel state (timerwheel.rs `TimerWheel`): `wheel[t][s]` is the list
of arena indices in that bucket's intrusive wheel list, front (the root's
`wheel_next`) first.  The monotonic clock value `nanos` is explicit. -/
structure TimerWheelState where
  nanos : Nat
  wheel : List (List (List Nat))
deriving Repr, DecidableEq

namespace TimerWheelState

/-- Bucket (t, s) of the wheel. -/
def bucket (tw : TimerWheelState) (t s : Nat) : List Nat :=
  (tw.wheel.getD t []).getD s []

/-- Replace bucket (t, s). -/
def setBucket (tw : TimerWheelState) (t s : Nat) (b : List Nat) : TimerWheelState :=
  { tw with wheel := tw.wheel.set t ((tw.wheel.getD t []).set s b) }

/-- TimerWheel::new: allocate the 64+64+32+4+1 bucket root sentinels (ids 4
and up) in the arena and start all buckets empty; `n0` is the clock reading
at construction. -/
def new (_size : Nat) (n0 : Nat) (m : MetaData) : TimerWheelState × MetaData :=
  let m1 := (List.range 165).foldl (fun acc k => (acc.newRoot (4 + k)).2) m
  ({ nanos := n0, wheel := TimerWheel.buckets.map (fun c => List.replicate c []) }, m1)

/-- TimerWheel::deschedule: if the entry sits in a wheel bucket, splice it
out and clear its wheel coordinates. -/
def deschedule (tw : TimerWheelState) (m : MetaData) (index : Nat) :
    TimerWheelState × MetaData :=
  let e := m.entryAt index
  if 0 < e.wheel_link_id then
    let t := e.wheel_index.1
    let s := e.wheel_index.2
    let tw1 := tw.setBucket t s ((tw.bucket t s).erase index)
    let m1 := m.updateEntry index (fun en =>
      { en with wheel_link_id := 0, wheel_index := (0, 0), wheel_prev := 0, wheel_next := 0 })
    (tw1, m1)
  else (tw, m)

/-- TimerWheel::schedule: deschedule first; entries with a nonzero expiry are
inserted at the front of the bucket chosen by find_index, recording the
coordinates on the entry. -/
def schedule (tw : TimerWheelState) (m : MetaData) (index : Nat) :
    TimerWheelState × MetaData :=
  let r := deschedule tw m index
  let tw1 := r.1
  let m1 := r.2
  let e := m1.entryAt index
  if 0 < e.expire then
    let w := TimerWheel.find_index tw1.nanos e.expire
    let m2 := m1.updateEntry index (fun en =>
      { en with wheel_index := w, wheel_link_id := TimerWheel.bucketId w.1 w.2 })
    let tw2 := tw1.setBucket w.1 w.2 (index :: tw1.bucket w.1 w.2)
    (tw2, m2)
  else (tw1, m1)

/-- State threaded through `advance`: wheel, arena, a policy state acted on
only through its `remove`, and the sink's `del_item(key, index)` call log in
call order. -/
def AdvSt (σ : Type) := TimerWheelState × MetaData × σ × List (String × Nat)

/-- One bucket sweep of TimerWheel::expire: collect the bucket in list
order, report and free the entries already expired at the new clock, clear
the bucket and cascade the survivors via schedule. -/
def expireBucket {σ : Type} (premove : Nat → σ → σ) (t s : Nat) (st : AdvSt σ) :
    AdvSt σ :=
  let tw := st.1
  let m := st.2.1
  let pol := st.2.2.1
  let sunk := st.2.2.2
  let b := tw.bucket t s
  let part := b.partition (fun i => (m.entryAt i).expire ≤ tw.nanos)
  let removed := part.1
  let modified := part.2
  let sunk1 := sunk ++ removed.map (fun i => ((m.entryAt i).key, i))
  let st1 := removed.foldl
    (fun (acc : TimerWheelState × MetaData × σ) i =>
      let r := deschedule acc.1 acc.2.1 i
      let m1 := r.2.remove i
      (r.1, m1, premove i acc.2.2))
    (tw, m, pol)
  let tw2 := st1.1.setBucket t s []
  let st2 := modified.foldl
    (fun (acc : TimerWheelState × MetaData) i => schedule acc.1 acc.2 i)
    (tw2, st1.2.1)
  (st2.1, st2.2, st1.2.2, sunk1)

/-- Bucket range of one tier sweep of TimerWheel::expire: at most
`buckets[t]` buckets starting from the previous tick's slot. -/
def expireTier {σ : Type} (premove : Nat → σ → σ) (t prevTicks delta : Nat)
    (st : AdvSt σ) : AdvSt σ :=
  let bc := TimerWheel.buckets.getD t 0
  let mask := bc - 1
  let steps := min delta bc
  let start := prevTicks &&& mask
  (List.range steps).foldl
    (fun acc o => expireBucket premove t ((start + o) &&& mask) acc) st

/-- Tier loop of TimerWheel::advance: sweep tiers in ascending order,
stopping at the first tier whose tick count made no progress. -/
def advanceLoop {σ : Type} (premove : Nat → σ → σ) (previous now : Nat) :
    List Nat → AdvSt σ → AdvSt σ
  | [], st => st
  | t :: rest, st =>
    let pt := previous >>> TimerWheel.shift.getD t 0
    let ct := now >>> TimerWheel.shift.getD t 0
    if ct ≤ pt then st
    else advanceLoop premove previous now rest (expireTier premove t pt (ct - pt) st)

/-- TimerWheel::advance: move the clock to `now` and sweep the elapsed
ticks.  `premove` is the policy's `remove(index)`, the only capability the
wheel requires of the policy. -/
def advance {σ : Type} (tw : TimerWheelState) (m : MetaData) (pol : σ)
    (premove : Nat → σ → σ) (now : Nat) : AdvSt σ :=
  let previous := tw.nanos
  let tw1 : TimerWheelState := { tw with nanos := now }
  advanceLoop premove previous now [0, 1, 2, 3, 4] (tw1, m, pol, [])

end TimerWheelState

/-! ## clockpro.rs: the CLOCK-Pro policy -/

/-- CLOCK-Pro policy state (clockpro.rs `ClockPro`): the three hands and the
counters over one ring; `root` and `capacity` are the embedded Link's root
sentinel and bound, `ring` its membership in next order. -/
structure ClockProState where
  mem_max : Nat
  mem_cold : Nat
  hand_hot : Nat
  hand_cold : Nat
  hand_test : Nat
  count_hot : Nat
  count_cold : Nat
  count_test : Nat
  root : Nat
  capacity : Nat
  ring : List Nat
deriving Repr, DecidableEq

/-- ClockPro::new: capacity-2·size ring, hands on the root, and the adaptive
cold target started at `size` (the full capacity). -/
def ClockPro.new (size : Nat) (m : MetaData) : ClockProState × MetaData :=
  let r := m.newRoot 1
  ({ mem_max := size, mem_cold := size
     hand_hot := r.1, hand_cold := r.1, hand_test := r.1
     count_hot := 0, count_cold := 0, count_test := 0
     root := r.1, capacity := size * 2, ring := [] }, r.2)

namespace ClockProState

/-- ClockPro::_reorganize_cold: advance the cold hand off a non-COLD page. -/
def _reorganize_cold (s : ClockProState) (m : MetaData) : ClockProState :=
  if (m.entryAt s.hand_cold).clock_info.2 = COLD_PAGE then s
  else { s with hand_cold := ringNext s.ring s.root s.hand_cold }

/-- ClockPro::_reorganize_hot. -/
def _reorganize_hot (s : ClockProState) (m : MetaData) : ClockProState :=
  if (m.entryAt s.hand_hot).clock_info.2 = HOT_PAGE then s
  else { s with hand_hot := ringNext s.ring s.root s.hand_hot }

/-- ClockPro::_reorganize_test. -/
def _reorganize_test (s : ClockProState) (m : MetaData) : ClockProState :=
  if (m.entryAt s.hand_test).clock_info.2 = TEST_PAGE then s
  else { s with hand_test := ringNext s.ring s.root s.hand_test }

/-- ClockPro::_meta_del: reposition each hand sitting on `index` to its
predecessor (root skipped) and splice `index` out of the ring.  The
underlying Link::remove touches neighbour pointers only, so the arena is
unchanged at this level. -/
def _meta_del (s : ClockProState) (index : Nat) : ClockProState :=
  let s1 := if s.hand_cold = index then
    { s with hand_cold := ringPrev s.ring s.root s.hand_cold } else s
  let s2 := if s1.hand_hot = index then
    { s1 with hand_hot := ringPrev s1.ring s1.root s1.hand_hot } else s1
  let s3 := if s2.hand_test = index then
    { s2 with hand_test := ringPrev s2.ring s2.root s2.hand_test } else s2
  { s3 with ring := s3.ring.erase index }

/-- ClockPro::_hand_test: when the test hand sits on a TEST page, remove it
from the ring, shrink the cold target (never below 1) and report the index;
in either case step the hand forward. -/
def _hand_test (s : ClockProState) (m : MetaData) :
    Option Nat × ClockProState × MetaData :=
  let s0 := if s.hand_test = s.hand_cold then s._reorganize_cold m else s
  let ht := s0.hand_test
  if (m.entryAt ht).clock_info.2 = TEST_PAGE then
    let nxt := ringNextAfterRemoval s0.ring s0.root ht
    let s1 := s0._meta_del ht
    let s2 : ClockProState :=
      { s1 with
        hand_test := nxt
        count_test := s1.count_test - 1
        mem_cold := if 1 < s1.mem_cold then s1.mem_cold - 1 else s1.mem_cold }
    (some ht, s2, m)
  else
    (none, { s0 with hand_test := ringNext s0.ring s0.root s0.hand_test }, m)

/-- ClockPro::_hand_hot: clear a referenced HOT page's bit or demote an
unreferenced one to COLD, then step the hand forward. -/
def _hand_hot (s : ClockProState) (m : MetaData) : ClockProState × MetaData :=
  let s0 := if s.hand_hot = s.hand_test then s._reorganize_test m else s
  let hh := s0.hand_hot
  let e := m.entryAt hh
  let nxt := ringNext s0.ring s0.root hh
  let m1 := if e.clock_info.2 = HOT_PAGE then
      (if e.clock_info.1 then
        m.updateEntry hh (fun en => { en with clock_info := (false, HOT_PAGE) })
      else
        m.updateEntry hh (fun en => { en with clock_info := (false, COLD_PAGE) }))
    else m
  let s1 := if e.clock_info.2 = HOT_PAGE ∧ e.clock_info.1 = false then
      { s0 with count_hot := s0.count_hot - 1, count_cold := s0.count_cold + 1 }
    else s0
  ({ s1 with hand_hot := nxt }, m1)

/-- While loop `while mem_max < count_test { removed = hand_test() }` of
ClockPro::_hand_cold, with the source's overwrite of `removed`;
fuel-bounded. -/
def handTestLoop : Nat → Option Nat → ClockProState → MetaData →
    Option Nat × ClockProState × MetaData
  | 0, acc, s, m => (acc, s, m)
  | fuel + 1, acc, s, m =>
    if s.mem_max < s.count_test then
      let r := s._hand_test m
      handTestLoop fuel r.1 r.2.1 r.2.2
    else (acc, s, m)

/-- While loop `while mem_max - mem_cold < count_hot { hand_hot() }` of
ClockPro::_hand_cold; fuel-bounded. -/
def handHotLoop : Nat → ClockProState → MetaData → ClockProState × MetaData
  | 0, s, m => (s, m)
  | fuel + 1, s, m =>
    if s.mem_max - s.mem_cold < s.count_hot then
      let r := s._hand_hot m
      handHotLoop fuel r.1 r.2
    else (s, m)

/-- ClockPro::_hand_cold: promote a referenced COLD page to HOT, or turn an
unreferenced one into a TEST page (reporting its index as test-evicted) and
trim the TEST population; then step the cold hand and rebalance the HOT
population against the cold target. -/
def _hand_cold (fuel : Nat) (s : ClockProState) (m : MetaData) :
    (Option Nat × Option Nat) × ClockProState × MetaData :=
  let hc := s.hand_cold
  let e := m.entryAt hc
  let step : Option Nat × Option Nat × ClockProState × MetaData :=
    if e.clock_info.2 = COLD_PAGE then
      if e.clock_info.1 then
        (none, none,
         { s with count_cold := s.count_cold - 1, count_hot := s.count_hot + 1 },
         m.updateEntry hc (fun en => { en with clock_info := (false, HOT_PAGE) }))
      else
        let m1 := m.updateEntry hc (fun en => { en with clock_info := (false, TEST_PAGE) })
        let s1 : ClockProState :=
          { s with count_cold := s.count_cold - 1, count_test := s.count_test + 1 }
        let r := handTestLoop fuel none s1 m1
        (some (m.entryAt hc).index, r.1, r.2.1, r.2.2)
    else (none, none, s, m)
  let s2 := step.2.2.1
  let m2 := step.2.2.2
  let s3 := { s2 with hand_cold := ringNext s2.ring s2.root s2.hand_cold }
  let r2 := handHotLoop fuel s3 m2
  ((step.1, step.2.1), r2.1, r2.2)

/-- Eviction loop of ClockPro::_evict: `while mem_max ≤ count_hot +
count_cold { (test, removed) = hand_cold() }`, the reports overwritten each
iteration as in the source; fuel-bounded. -/
def evictLoop (fuel : Nat) : Nat → (Option Nat × Option Nat) → ClockProState → MetaData →
    (Option Nat × Option Nat) × ClockProState × MetaData
  | 0, acc, s, m => (acc, s, m)
  | n + 1, acc, s, m =>
    if s.mem_max ≤ s.count_hot + s.count_cold then
      let r := _hand_cold fuel s m
      evictLoop fuel n r.1 r.2.1 r.2.2
    else (acc, s, m)

/-- ClockPro::_evict. -/
def _evict (fuel : Nat) (s : ClockProState) (m : MetaData) :
    (Option Nat × Option Nat) × ClockProState × MetaData :=
  evictLoop fuel fuel (none, none) s m

/-- ClockPro::_meta_add: evict first, then splice `index` in before the hot
hand (Link::insert_before, silently dropping the tail when the ring is at
capacity), and fix up the hands for the first-element and ordering cases. -/
def _meta_add (fuel : Nat) (s : ClockProState) (m : MetaData) (index : Nat) :
    (Option Nat × Option Nat) × ClockProState × MetaData :=
  let r := _evict fuel s m
  let s1 := r.2.1
  let m1 := r.2.2
  let s2 := if s1.ring.length = s1.capacity then
      { s1 with ring := s1.ring.dropLast } else s1
  let m2 := m1.updateEntry index (fun en => { en with link_id := 1 })
  let s3 := { s2 with ring := ringInsertBefore s2.ring index s2.hand_hot }
  let s4 := if s3.hand_hot = s3.root then
      { s3 with hand_cold := index, hand_hot := index, hand_test := index } else s3
  let s5 := if s4.hand_cold = s4.hand_hot then
      { s4 with hand_cold := ringPrev s4.ring s4.root s4.hand_cold } else s4
  (r.1, s5, m2)

/-- ClockPro::set: insert a new entry as a COLD page before the hot hand;
promote a resident TEST page to HOT, growing the cold target (never beyond
mem_max); otherwise just set the reference bit. -/
def set (fuel : Nat) (s : ClockProState) (m : MetaData) (index : Nat) :
    (Option Nat × Option Nat) × ClockProState × MetaData :=
  let e := m.entryAt index
  if e.link_id = 0 then
    let r := _meta_add fuel s m index
    (r.1, { r.2.1 with count_cold := r.2.1.count_cold + 1 }, r.2.2)
  else if e.clock_info.2 = TEST_PAGE then
    let s1 := if s.mem_cold < s.mem_max then { s with mem_cold := s.mem_cold + 1 } else s
    let m1 := m.updateEntry index (fun en => { en with clock_info := (false, HOT_PAGE) })
    let s2 := s1._meta_del index
    let s3 : ClockProState := { s2 with count_test := s2.count_test - 1 }
    let r := _meta_add fuel s3 m1 index
    (r.1, { r.2.1 with count_hot := r.2.1.count_hot + 1 }, r.2.2)
  else
    ((none, none), s,
     m.updateEntry index (fun en => { en with clock_info := (true, en.clock_info.2) }))

/-- Policy::remove for ClockPro: decrement the counter of the entry's page
class and splice it out of the ring. -/
def remove (s : ClockProState) (m : MetaData) (index : Nat) :
    ClockProState × MetaData :=
  let c := (m.entryAt index).clock_info.2
  let s1 := if c = COLD_PAGE then { s with count_cold := s.count_cold - 1 }
    else if c = HOT_PAGE then { s with count_hot := s.count_hot - 1 }
    else if c = TEST_PAGE then { s with count_test := s.count_test - 1 }
    else s
  (s1._meta_del index, m)

end ClockProState

/-- ClockPro::access (clockpro.rs lines 49-69).  The expiry comparison in the
source is against `SystemTime::now()` since the UNIX epoch — the wall clock —
not against the engine's `Instant`-based clock; `wallNow` is that wall-clock
reading.  A resident, non-expired entry gets its reference bit set; TEST
pages report a miss. -/
def ClockPro.access (m : MetaData) (key : String) (wallNow : Nat) :
    Option Nat × MetaData :=
  match m.get key with
  | none => (none, m)
  | some index =>
    let e := m.entryAt index
    if e.expire ≠ 0 ∧ e.expire ≤ wallNow then (none, m)
    else
      let m1 := m.updateEntry index (fun en => { en with clock_info := (true, en.clock_info.2) })
      if e.clock_info.2 ≠ TEST_PAGE then (some index, m1) else (none, m1)

/-! ## core.rs: the ClockProCore engine facade -/

/-- Clock::expire_ns: `now + ttl` on the engine's monotonic clock for a
positive ttl, 0 (never) otherwise. -/
def Clock.expire_ns (now ttl : Nat) : Nat :=
  if 0 < ttl then now + ttl else 0

/-- ClockProCore state: policy, wheel and shared arena. -/
structure ClockProCoreState where
  policy : ClockProState
  wheel : TimerWheelState
  metadata : MetaData
deriving Repr, DecidableEq

/-- ClockProCore::new(size): arena for 2·size entries, a ClockPro of
capacity size, a wheel of capacity 2·size; `n0` is the engine clock at
construction. -/
def ClockProCore.new (size : Nat) (n0 : Nat) : ClockProCoreState :=
  let m0 := MetaData.new (size * 2)
  let rp := ClockPro.new size m0
  let rw := TimerWheelState.new (size * 2) n0 rp.2
  { policy := rp.1, wheel := rw.1, metadata := rw.2 }

/-- ClockProCore::set(key, ttl): create or fetch the entry, stamp its expiry
from the engine clock (`engineNow`), schedule it, offer it to the policy, and
fully remove the policy's removed page.  Returns (index, test_index,
removed_index, removed_key). -/
def ClockProCore.set (c : ClockProCoreState) (key : String) (ttl engineNow fuel : Nat) :
    ClockProCoreState × Nat × Option Nat × Option Nat × Option String :=
  let r0 := c.metadata.get_or_create key
  let index := r0.1
  let m1 := r0.2.updateEntry index (fun en => { en with expire := Clock.expire_ns engineNow ttl })
  let rw := TimerWheelState.schedule c.wheel m1 index
  let rp := ClockProState.set fuel c.policy rw.2 index
  match rp.1.2 with
  | some i =>
    let e := rp.2.2.entryAt i
    let rw2 := TimerWheelState.deschedule rw.1 rp.2.2 i
    let m2 := rw2.2.remove i
    ({ policy := rp.2.1, wheel := rw2.1, metadata := m2 }, index, rp.1.1, some i, some e.key)
  | none =>
    ({ policy := rp.2.1, wheel := rw.1, metadata := rp.2.2 }, index, rp.1.1, none, none)

/-- ClockProCore::access: delegates to ClockPro::access (which consults the
wall clock, not the engine clock). -/
def ClockProCore.access (c : ClockProCoreState) (key : String) (wallNow : Nat) :
    Option Nat × ClockProCoreState :=
  let r := ClockPro.access c.metadata key wallNow
  (r.1, { c with metadata := r.2 })

/-! ## tlfu.rs and lru.rs: the W-TinyLFU policy -/

namespace Wtlfu

/-- Modelled from the spec: the `List` type of the tlfu generation's
metadata.rs (a dlv_list-backed ordered list with an advisory capacity) is
not part of src.  Elements are keys, front first; `insert_front` pushes
without evicting (capacity is enforced by the policy loops, per the spec's
evict-from-window description, which requires the window length to exceed
its capacity, and the repository's own TinyLFU tests); the dlv index of a
node is identified with the key stored in it. -/
structure TList where
  elems : List Nat
  capacity : Nat
deriving DecidableEq

/-- List::new. -/
def TList.new (capacity : Nat) : TList := { elems := [], capacity := capacity }

/-- List::insert_front: push at the front (no eviction, see `TList`). -/
def TList.insert_front (l : TList) (k : Nat) : TList :=
  { l with elems := k :: l.elems }

/-- List::tail. -/
def TList.tail (l : TList) : Option Nat := l.elems.getLast?

/-- List::pop_tail. -/
def TList.pop_tail (l : TList) : TList × Option Nat :=
  match l.elems.getLast? with
  | none => (l, none)
  | some k => ({ l with elems := l.elems.dropLast }, some k)

/-- List::remove at a dlv index. -/
def TList.remove (l : TList) (i : Nat) : TList := { l with elems := l.elems.erase i }

/-- List::touch: move a present node to the front. -/
def TList.touch (l : TList) (i : Nat) : TList :=
  if l.elems.contains i then { l with elems := i :: l.elems.erase i } else l

/-- List::prev: the neighbour toward the front. -/
def TList.prev (l : TList) (i : Nat) : Option Nat :=
  match l.elems.findIdx? (fun x => x == i) with
  | none => none
  | some n => if n = 0 then none else l.elems[n-1]?

/-- Modelled from the spec: the Entry fields the tlfu generation uses
(policy_list_id 0 = unlinked, 1 = window, 2 = probation, 3 = protected;
policy_list_index is the dlv index; expire in nanoseconds, 0 = never). -/
structure WEntry where
  policy_list_id : Nat
  policy_list_index : Option Nat
  expire : Nat
deriving DecidableEq

/-- Entry::new equivalent of the tlfu generation. -/
def WEntry.new : WEntry :=
  { policy_list_id := 0, policy_list_index := none, expire := 0 }

/-- The entries HashMap<u64, Entry>, as an association list. -/
abbrev EntriesT := List (Nat × WEntry)

/-- HashMap::get. -/
def entGet (es : EntriesT) (k : Nat) : Option WEntry :=
  match es.find? (fun p => p.1 == k) with
  | none => none
  | some p => some p.2

/-- In-place update through HashMap::get_mut (no-op when absent). -/
def entSet (es : EntriesT) (k : Nat) (e : WEntry) : EntriesT :=
  es.map (fun p => if p.1 == k then (p.1, e) else p)

/-- Store a policy membership into an entry. -/
def setPolicy (es : EntriesT) (k : Nat) (id : Nat) (idx : Option Nat) : EntriesT :=
  match entGet es k with
  | none => es
  | some e => entSet es k { e with policy_list_id := id, policy_list_index := idx }

/-- TinyLfu (tlfu.rs): the float fields hr and step are omitted; the
hill-climber step feeds in as an oracle integer where climb runs. -/
structure TinyLfu where
  size : Nat
  capacity : Nat
  window : TList
  probation : TList
  protectedL : TList
  mainMaxsize : Nat
  hit_in_sample : Nat
  misses_in_sample : Nat
  sampleSize : Nat
  amount : Int
deriving DecidableEq

/-- TinyLfu::new (the f64 products 0.01*size and 0.8*maxsize floor to
size/100 and maxsize*4/5 exactly on the usize range). -/
def TinyLfu.new (size : Nat) : TinyLfu :=
  let lru_size0 := size / 100
  let lru_size := if lru_size0 = 0 then 1 else lru_size0
  let slru_size := size - lru_size
  { size := 0
    capacity := size
    window := TList.new lru_size
    probation := TList.new slru_size
    protectedL := TList.new (slru_size * 4 / 5)
    mainMaxsize := slru_size
    hit_in_sample := 0
    misses_in_sample := 0
    sampleSize := (CountMinSketch.new size).sampleSize
    amount := 0 }

/-- Lru::insert (lru.rs): push the key at the window front and record the
membership; the evicted return is always None with the plain-push list. -/
def lruInsert (t : TinyLfu) (es : EntriesT) (k : Nat) : TinyLfu × EntriesT :=
  ({ t with window := t.window.insert_front k }, setPolicy es k 1 (some k))

/-- Lru::remove (lru.rs). -/
def lruRemove (t : TinyLfu) (es : EntriesT) (k : Nat) : TinyLfu :=
  match entGet es k with
  | some e =>
    match e.policy_list_index with
    | some i => { t with window := t.window.remove i }
    | none => t
  | none => t

/-- Slru::insert (lru.rs): admit to probation; when the combined length has
reached maxsize, first pop the probation tail and return it. -/
def slruInsert (t : TinyLfu) (es : EntriesT) (k : Nat) :
    TinyLfu × EntriesT × Option Nat :=
  if t.mainMaxsize = 0 then (t, es, some k)
  else if t.mainMaxsize ≤ t.protectedL.elems.length + t.probation.elems.length then
    match t.probation.pop_tail with
    | (pl, some evicted) =>
      ({ t with probation := pl.insert_front k }, setPolicy es k 2 (some k), some evicted)
    | (_, none) =>
      ({ t with probation := t.probation.insert_front k }, setPolicy es k 2 (some k), none)
  else
    ({ t with probation := t.probation.insert_front k }, setPolicy es k 2 (some k), none)

/-- Slru::remove (lru.rs); unreachable!() on an unknown id is a fault. -/
def slruRemove (t : TinyLfu) (es : EntriesT) (k : Nat) : Option TinyLfu :=
  match entGet es k with
  | none => some t
  | some e =>
    match e.policy_list_index with
    | none => some t
    | some i =>
      match e.policy_list_id with
      | 2 => some { t with probation := t.probation.remove i }
      | 3 => some { t with protectedL := t.protectedL.remove i }
      | _ => none

/-- TinyLfu::remove (tlfu.rs lines 249-257): dispatch on policy_list_id --
id 0 touches no list -- then decrement size; a usize underflow of size is a
fault (none). -/
def tlfuRemove (t : TinyLfu) (es : EntriesT) (k : Nat) : Option TinyLfu :=
  match entGet es k with
  | none => none
  | some e =>
    match (match e.policy_list_id with
           | 0 => some t
           | 1 => some (lruRemove t es k)
           | 2 => slruRemove t es k
           | 3 => slruRemove t es k
           | _ => none) with
    | none => none
    | some t1 => if t1.size = 0 then none else some { t1 with size := t1.size - 1 }

/-- Slru::access (lru.rs): probation promotes to protected (the handling of
a promoted-evicted key is dead code with the plain-push list), protected
touches; unwrap/unreachable faults are none. -/
def slruAccess (t : TinyLfu) (es : EntriesT) (k : Nat) : Option (TinyLfu × EntriesT) :=
  match entGet es k with
  | none => some (t, es)
  | some e =>
    match e.policy_list_id with
    | 2 =>
      if 0 < t.protectedL.capacity then
        match e.policy_list_index with
        | none => none
        | some i =>
          some ({ t with probation := t.probation.remove i,
                         protectedL := t.protectedL.insert_front k },
                setPolicy es k 3 (some k))
      else some (t, es)
    | 3 =>
      match e.policy_list_index with
      | none => none
      | some i => some ({ t with protectedL := t.protectedL.touch i }, es)
    | _ => none

/-- demote_from_protected (tlfu.rs), fuel-bounded. -/
def demoteLoop : Nat → TinyLfu → EntriesT → Option (TinyLfu × EntriesT)
  | 0, t, es =>
    if t.protectedL.capacity < t.protectedL.elems.length then none else some (t, es)
  | fuel+1, t, es =>
    if t.protectedL.capacity < t.protectedL.elems.length then
      match t.protectedL.pop_tail with
      | (pl, some key) =>
        match entGet es key with
        | some _ =>
          let r := slruInsert { t with protectedL := pl } es key
          demoteLoop fuel r.1 r.2.1
        | none => demoteLoop fuel { t with protectedL := pl } es
      | (_, none) => none
    else some (t, es)

/-- increase_window's loop (tlfu.rs): move main tails into the window. -/
def increaseLoop : Nat → Int → TinyLfu → EntriesT → Option (Int × TinyLfu × EntriesT)
  | 0, amount, t, es =>
    (match (match t.probation.tail with | some k => some k | none => t.protectedL.tail) with
     | none => some (amount, t, es)
     | some _ => if amount ≤ 0 then some (amount, t, es) else none)
  | fuel+1, amount, t, es =>
    match (match t.probation.tail with | some k => some k | none => t.protectedL.tail) with
    | none => some (amount, t, es)
    | some k =>
      if amount ≤ 0 then some (amount, t, es)
      else
        match entGet es k with
        | some _ =>
          match slruRemove t es k with
          | none => none
          | some t1 =>
            let r := lruInsert t1 es k
            increaseLoop fuel (amount - 1) r.1 r.2
        | none => increaseLoop fuel (amount - 1) t es

/-- decrease_window's loop (tlfu.rs): move window tails into probation. -/
def decreaseLoop : Nat → Int → TinyLfu → EntriesT → Option (Int × TinyLfu × EntriesT)
  | 0, amount, t, es =>
    (match t.window.tail with
     | none => some (amount, t, es)
     | some _ => if amount ≤ 0 then some (amount, t, es) else none)
  | fuel+1, amount, t, es =>
    match t.window.tail with
    | none => some (amount, t, es)
    | some k =>
      if amount ≤ 0 then some (amount, t, es)
      else
        match entGet es k with
        | some _ =>
          let t1 := lruRemove t es k
          let r := slruInsert t1 es k
          decreaseLoop fuel (amount - 1) r.1 r.2.1
        | none => decreaseLoop fuel (amount - 1) t es

/-- usize::saturating_add_signed on the Nat model (saturates at zero). -/
def satAddSigned (n : Nat) (i : Int) : Nat := ((n : Int) + i).toNat

/-- resize_window (tlfu.rs). -/
def resizeWindow (t : TinyLfu) (es : EntriesT) : Option (TinyLfu × EntriesT) :=
  let t1 := { t with
    window := { t.window with capacity := satAddSigned t.window.capacity t.amount }
    protectedL := { t.protectedL with
      capacity := satAddSigned t.protectedL.capacity (-t.amount) } }
  match demoteLoop (t1.protectedL.elems.length + 1) t1 es with
  | none => none
  | some (t2, es2) =>
    match (if 0 < t2.amount then
             match increaseLoop (t2.amount.toNat + 1) t2.amount t2 es2 with
             | none => none
             | some (remain, t3, es3) => some ({ t3 with amount := remain }, es3)
           else if t2.amount < 0 then
             match decreaseLoop ((-t2.amount).toNat + 1) (-t2.amount) t2 es2 with
             | none => none
             | some (remain, t3, es3) => some ({ t3 with amount := -remain }, es3)
           else some (t2, es2)) with
    | none => none
    | some (t4, es4) =>
      some ({ t4 with
        window := { t4.window with capacity := satAddSigned t4.window.capacity (-t4.amount) }
        protectedL := { t4.protectedL with
          capacity := satAddSigned t4.protectedL.capacity t4.amount } }, es4)

/-- climb (tlfu.rs): the float-derived pre-clamp step is the oracle
`amountPre`; the integer clamps are the source's, shared with climbClamp. -/
def climb (t : TinyLfu) (amountPre : Int) : TinyLfu :=
  { t with amount := climbClamp amountPre t.window.capacity }

/-- evict_from_window (tlfu.rs), fuel-bounded. -/
def evictWindowLoop : Nat → TinyLfu → EntriesT → Option Nat →
    Option (TinyLfu × EntriesT × Option Nat)
  | 0, t, es, first =>
    if t.window.capacity < t.window.elems.length then none else some (t, es, first)
  | fuel+1, t, es, first =>
    if t.window.capacity < t.window.elems.length then
      match t.window.pop_tail with
      | (wl, some evicted) =>
        let first1 := if first = none then some evicted else first
        match entGet es evicted with
        | some _ =>
          let r := slruInsert { t with window := wl } es evicted
          evictWindowLoop fuel r.1 r.2.1 first1
        | none => evictWindowLoop fuel { t with window := wl } es first1
      | (_, none) => none
    else some (t, es, first)

/-- prev_key (tlfu.rs): the outer none is a panic (unwrap of a missing key
or index, or unreachable!()); the inner option is the returned value. -/
def prevKey (t : TinyLfu) (es : EntriesT) (key : Option Nat) : Option (Option Nat) :=
  match key with
  | none => none
  | some k =>
    match entGet es k with
    | none => some none
    | some e =>
      match (match e.policy_list_id with
             | 1 => some t.window
             | 2 => some t.probation
             | 3 => some t.protectedL
             | _ => none) with
      | none => none
      | some l =>
        match e.policy_list_index with
        | none => none
        | some i => some (l.prev i)

/-- One guarded removal of the eviction loop body
(`if let Some(key) = evict { if let Some(entry) = get_mut { remove } }`). -/
def evictKey (t : TinyLfu) (es : EntriesT) (key : Option Nat) (evicted : Option Nat) :
    Option (TinyLfu × Option Nat) :=
  match key with
  | none => some (t, evicted)
  | some kk =>
    match entGet es kk with
    | none => some (t, evicted)
    | some _ =>
      match tlfuRemove t es kk with
      | none => none
      | some t1 => some (t1, some kk)

/-- The candidate refill at the top of evict_from_main's body. -/
def refillCandidate (t : TinyLfu) (candidate : Option Nat) (cQ : Nat) :
    Option Nat × Nat :=
  if candidate = none ∧ cQ = 2 then (t.window.tail, 1) else (candidate, cQ)

/-- One iteration of evict_from_main's while body (tlfu.rs lines 277-363).
Queues are numbered like list ids: 1 window, 2 probation, 3 protected.
The entries map is read-only here (removals touch only the policy state). -/
def evictMainStep (t : TinyLfu) (es : EntriesT) (vQ cQ : Nat)
    (victim candidate evicted : Option Nat) (admitO : Nat → Nat → Bool) :
    Option (TinyLfu × Nat × Nat × Option Nat × Option Nat × Option Nat) :=
  let cc := refillCandidate t candidate cQ
  if cc.1 = none ∧ victim = none ∧ vQ = 2 then
    some (t, 3, cc.2, t.protectedL.tail, cc.1, evicted)
  else if cc.1 = none ∧ victim = none ∧ vQ = 3 then
    some (t, 1, cc.2, t.window.tail, cc.1, evicted)
  else if victim = none then
    match prevKey t es cc.1 with
    | none => none
    | some prev =>
      match evictKey t es cc.1 evicted with
      | none => none
      | some (t1, ev1) => some (t1, vQ, cc.2, victim, prev, ev1)
  else if cc.1 = none then
    match prevKey t es victim with
    | none => none
    | some prevv =>
      match evictKey t es victim evicted with
      | none => none
      | some (t1, ev1) => some (t1, vQ, cc.2, prevv, none, ev1)
  else if victim = cc.1 then
    match prevKey t es victim with
    | none => none
    | some prevv =>
      match evictKey t es cc.1 evicted with
      | none => none
      | some (t1, ev1) => some (t1, vQ, cc.2, prevv, none, ev1)
  else
    match cc.1, victim with
    | some c, some v =>
      if admitO c v then
        match prevKey t es victim with
        | none => none
        | some prevv =>
          match evictKey t es victim evicted with
          | none => none
          | some (t1, ev1) =>
            match prevKey t1 es cc.1 with
            | none => none
            | some prevc => some (t1, vQ, cc.2, prevv, prevc, ev1)
      else
        match prevKey t es cc.1 with
        | none => none
        | some prevc =>
          match evictKey t es cc.1 evicted with
          | none => none
          | some (t1, ev1) => some (t1, vQ, cc.2, victim, prevc, ev1)
    | _, _ => none

/-- evict_from_main's while loop, fuel-bounded. -/
def evictMainLoop : Nat → TinyLfu → EntriesT → Nat → Nat → Option Nat → Option Nat →
    Option Nat → (Nat → Nat → Bool) → Option (TinyLfu × Option Nat)
  | 0, t, _, _, _, _, _, evicted, _ =>
    if t.capacity < t.size then none else some (t, evicted)
  | fuel+1, t, es, vQ, cQ, victim, candidate, evicted, admitO =>
    if t.capacity < t.size then
      match evictMainStep t es vQ cQ victim candidate evicted admitO with
      | none => none
      | some (t1, vQ1, cQ1, v1, c1, ev1) =>
        evictMainLoop fuel t1 es vQ1 cQ1 v1 c1 ev1 admitO
    else some (t, evicted)

/-- evict_entries (tlfu.rs). -/
def evictEntries (t : TinyLfu) (es : EntriesT) (admitO : Nat → Nat → Bool) :
    Option (TinyLfu × EntriesT × Option Nat) :=
  match evictWindowLoop (t.window.elems.length + 1) t es none with
  | none => none
  | some (t1, es1, first) =>
    match evictMainLoop (t1.size + 8) t1 es1 2 2 t1.probation.tail first none admitO with
    | none => none
    | some (t2, ev) => some (t2, es1, ev)

/-- The new-entry phase of TinyLfu::set: a present entry with
policy_list_id 0 counts as a miss, goes to the window front and bumps size. -/
def setInsert (t : TinyLfu) (es : EntriesT) (k : Nat) : TinyLfu × EntriesT :=
  match entGet es k with
  | some e =>
    if e.policy_list_id = 0 then
      let r := lruInsert { t with misses_in_sample := t.misses_in_sample + 1 } es k
      ({ r.1 with size := r.1.size + 1 }, r.2)
    else (t, es)
  | none => (t, es)

/-- TinyLfu::set (tlfu.rs lines 202-219): the admission RNG is the oracle
admitO, the hill-climber float step the oracle amountPre. -/
def tlfuSet (t : TinyLfu) (es : EntriesT) (k : Nat) (amountPre : Int)
    (admitO : Nat → Nat → Bool) : Option (TinyLfu × EntriesT × Option Nat) :=
  match (if t.sampleSize < t.hit_in_sample + t.misses_in_sample then
           resizeWindow (climb t amountPre) es
         else some (t, es)) with
  | none => none
  | some (t1, es1) =>
    let ins := setInsert t1 es1 k
    match demoteLoop (ins.1.protectedL.elems.length + 1) ins.1 ins.2 with
    | none => none
    | some (t3, es3) => evictEntries t3 es3 admitO

/-- TinyLfu::access (tlfu.rs): the sketch add is outside this state; `now`
is clock.now_ns(). -/
def tlfuAccess (t : TinyLfu) (es : EntriesT) (k : Nat) (now : Nat) (amountPre : Int) :
    Option (TinyLfu × EntriesT) :=
  match (if t.sampleSize < t.hit_in_sample + t.misses_in_sample then
           resizeWindow (climb t amountPre) es
         else some (t, es)) with
  | none => none
  | some (t1, es1) =>
    match entGet es1 k with
    | none => some (t1, es1)
    | some e =>
      if e.expire ≠ 0 ∧ e.expire ≤ now then some (t1, es1)
      else
        match e.policy_list_index with
        | none => some (t1, es1)
        | some i =>
          match e.policy_list_id with
          | 1 => some ({ t1 with window := t1.window.touch i }, es1)
          | 2 => slruAccess t1 es1 k
          | 3 => slruAccess t1 es1 k
          | _ => none

end Wtlfu

/-! ## Theorems: packed 4-bit counter arithmetic (toward C5) -/

/-- Low four bits as a remainder. -/
theorem and_fifteen (x : Nat) : x &&& 15 = x % 16 :=
  Nat.and_pow_two_sub_one_eq_mod x 4

/-- Low bit as a remainder. -/
theorem and_one (x : Nat) : x &&& 1 = x % 2 :=
  Nat.and_one_is_mod x

/-- Conjunction distributes over right shift. -/
theorem land_shiftRight (x y n : Nat) : (x &&& y) >>> n = (x >>> n) &&& (y >>> n) := by
  apply Nat.eq_of_testBit_eq
  intro i
  simp [Nat.testBit_land, Nat.testBit_shiftRight]

/-- Conjunction with a shifted mask reads the shifted word. -/
theorem land_shiftLeft (w a m : Nat) : w &&& (a <<< m) = ((w >>> m) &&& a) <<< m := by
  apply Nat.eq_of_testBit_eq
  intro i
  simp only [Nat.testBit_land, Nat.testBit_shiftLeft, Nat.testBit_shiftRight]
  by_cases hm : m ≤ i
  · have hmi : m + (i - m) = i := by omega
    simp [hm, hmi, Bool.and_comm, Bool.and_left_comm]
  · simp [hm]

/-- Counter value as a division-remainder pair. -/
theorem nibble_eq_div_mod (w j : Nat) : nibble w j = w / 2 ^ (4 * j) % 16 := by
  unfold nibble
  rw [Nat.shiftRight_eq_div_pow, and_fifteen]

/-- Counters are 4-bit values. -/
theorem nibble_lt (w j : Nat) : nibble w j < 16 := by
  rw [nibble_eq_div_mod]
  omega

/-- The saturation test of CountMinSketch::inc reads the counter: the masked
word equals the mask exactly when the 4-bit counter is 15. -/
theorem mask_check (w j : Nat) :
    w &&& (15 <<< (4 * j)) = 15 <<< (4 * j) ↔ nibble w j = 15 := by
  rw [land_shiftLeft]
  constructor
  · intro hh
    have h2 := congrArg (fun t => t >>> (4 * j)) hh
    simp only [Nat.shiftLeft_eq, Nat.shiftRight_eq_div_pow] at h2
    rw [Nat.mul_div_cancel _ (Nat.pos_pow_of_pos _ (by norm_num)),
        Nat.mul_div_cancel _ (Nat.pos_pow_of_pos _ (by norm_num))] at h2
    unfold nibble
    rw [Nat.shiftRight_eq_div_pow]
    exact h2
  · intro hh
    rw [show (w >>> (4 * j)) &&& 15 = nibble w j from rfl, hh]

/-- Incrementing one 4-bit counter that is below 15 changes exactly that
counter and carries into no other. -/
theorem nibble_add_pow (w j k : Nat) (hnb : nibble w j < 15) :
    nibble (w + 2 ^ (4 * j)) k = if k = j then nibble w j + 1 else nibble w k := by
  rcases Nat.lt_trichotomy k j with hlt | heq | hgt
  · rw [if_neg (by omega), nibble_eq_div_mod, nibble_eq_div_mod]
    have hkey : ∀ x : Nat, x / 2 ^ (4 * k) % 16 = x % 2 ^ (4 * (k + 1)) / 2 ^ (4 * k) := by
      intro x
      rw [show (2:Nat) ^ (4 * (k + 1)) = 2 ^ (4 * k) * 16 by
            rw [show 4 * (k + 1) = 4 * k + 4 by omega, pow_add]; norm_num,
          Nat.mod_mul_right_div_self]
    rw [hkey, hkey]
    have hM : (2:Nat) ^ (4 * j) = 2 ^ (4 * (k + 1)) * 2 ^ (4 * j - 4 * (k + 1)) := by
      rw [← pow_add]
      congr 1
      omega
    rw [hM, Nat.add_mul_mod_self_left]
  · subst heq
    rw [if_pos rfl, nibble_eq_div_mod, nibble_eq_div_mod,
        Nat.add_div_right _ (Nat.pos_pow_of_pos _ (by norm_num))]
    rw [nibble_eq_div_mod] at hnb
    omega
  · rw [if_neg (by omega), nibble_eq_div_mod, nibble_eq_div_mod]
    suffices hs : (w + 2 ^ (4 * j)) / 2 ^ (4 * k) = w / 2 ^ (4 * k) by rw [hs]
    have h1 : (2:Nat) ^ (4 * k) = 2 ^ (4 * (j + 1)) * 2 ^ (4 * k - 4 * (j + 1)) := by
      rw [← pow_add]
      congr 1
      omega
    rw [h1, ← Nat.div_div_eq_div_mul, ← Nat.div_div_eq_div_mul]
    congr 1
    have hP : (0:Nat) < 2 ^ (4 * j) := Nat.pos_pow_of_pos _ (by norm_num)
    have hK : (0:Nat) < 2 ^ (4 * (j + 1)) := Nat.pos_pow_of_pos _ (by norm_num)
    have h16 : (2:Nat) ^ (4 * (j + 1)) = 2 ^ (4 * j) * 16 := by
      rw [show 4 * (j + 1) = 4 * j + 4 by omega, pow_add]; norm_num
    have hnb2 : w % 2 ^ (4 * (j + 1)) / 2 ^ (4 * j) < 15 := by
      rw [h16, Nat.mod_mul_right_div_self]
      rw [nibble_eq_div_mod] at hnb
      exact hnb
    have hlt : w % 2 ^ (4 * (j + 1)) < 15 * 2 ^ (4 * j) :=
      (Nat.div_lt_iff_lt_mul hP).mp hnb2
    have hr : w % 2 ^ (4 * (j + 1)) + 2 ^ (4 * j) < 2 ^ (4 * (j + 1)) := by
      omega
    conv_lhs => rw [← Nat.div_add_mod w (2 ^ (4 * (j + 1)))]
    rw [Nat.add_assoc, Nat.mul_add_div hK, Nat.div_eq_of_lt hr, Nat.add_zero]

/-- Halving a packed word (CountMinSketch::reset's `(w >> 1) & RESET_MASK`)
halves every 4-bit counter. -/
theorem halve_nibble (w j : Nat) (hj : j < 16) :
    nibble ((w >>> 1) &&& RESET_MASK) j = nibble w j / 2 := by
  unfold nibble
  rw [land_shiftRight]
  rw [show (w >>> 1) >>> (4 * j) = w >>> (4 * j) >>> 1 by
        rw [← Nat.shiftRight_add, ← Nat.shiftRight_add, Nat.add_comm]]
  have hmask : RESET_MASK >>> (4 * j) &&& 15 = 7 := by
    interval_cases j <;> rfl
  rw [Nat.and_assoc, hmask]
  rw [show ((w >>> (4 * j)) &&& 15) = (w >>> (4 * j)) % 16 from and_fifteen _]
  rw [show (w >>> (4 * j)) >>> 1 = (w >>> (4 * j)) / 2 from Nat.shiftRight_eq_div_pow _ 1]
  rw [show (7:Nat) = 2 ^ 3 - 1 from rfl, Nat.and_pow_two_sub_one_eq_mod]
  have hk := Nat.mod_mul_right_div_self (w >>> (4 * j)) 2 8
  norm_num at hk ⊢
  omega

/-- Reading the low bit of a masked shifted word. -/
theorem shift_land_one (x y i : Nat) :
    ((x &&& y) >>> i) &&& 1 = (x >>> i) &&& ((y >>> i) &&& 1) := by
  rw [land_shiftRight, Nat.and_assoc]

/-- A sum over `range (4k)` grouped four by four. -/
theorem list_sum_range_four (f : Nat → Nat) (k : Nat) :
    ((List.range (4 * k)).map f).sum =
      ((List.range k).map
        (fun j => f (4 * j) + f (4 * j + 1) + f (4 * j + 2) + f (4 * j + 3))).sum := by
  induction k with
  | zero => rfl
  | succ n ih =>
    rw [show 4 * (n + 1) = 4 * n + 4 by omega, List.range_add]
    rw [show List.map (fun x => 4 * n + x) (List.range 4)
          = [4 * n, 4 * n + 1, 4 * n + 2, 4 * n + 3] from by rfl]
    rw [List.range_succ]
    simp [List.map_append, List.sum_append, ih]
    omega

/-- The per-word popcount of CountMinSketch::reset counts exactly the 4-bit
counters of the word whose low bit is set. -/
theorem popCount64_onemask (w : Nat) :
    popCount64 (w &&& ONE_MASK) =
      ((List.range 16).map (fun j => nibble w j &&& 1)).sum := by
  unfold popCount64
  rw [show (64:Nat) = 4 * 16 from rfl, list_sum_range_four]
  congr 1
  apply List.map_congr_left
  intro j hj
  have hj16 : j < 16 := List.mem_range.mp hj
  have h0 : ONE_MASK >>> (4 * j) &&& 1 = 1 := by interval_cases j <;> rfl
  have h1 : ONE_MASK >>> (4 * j + 1) &&& 1 = 0 := by interval_cases j <;> rfl
  have h2 : ONE_MASK >>> (4 * j + 2) &&& 1 = 0 := by interval_cases j <;> rfl
  have h3 : ONE_MASK >>> (4 * j + 3) &&& 1 = 0 := by interval_cases j <;> rfl
  rw [shift_land_one, shift_land_one, shift_land_one, shift_land_one, h0, h1, h2, h3,
      Nat.and_zero, Nat.and_zero, Nat.and_zero]
  unfold nibble
  rw [Nat.and_assoc, show (15:Nat) &&& 1 = 1 from rfl]
  omega

/-- Folding additions of `f` over a list is the sum of the mapped list. -/
theorem foldl_add_map {α : Type} (f : α → Nat) (l : List α) :
    ∀ a : Nat, l.foldl (fun acc w => acc + f w) a = a + (l.map f).sum := by
  induction l with
  | nil => intro a; simp
  | cons x xs ih =>
    intro a
    simp only [List.foldl_cons, List.map_cons, List.sum_cons, ih (a + f x)]
    omega

/-- Reading an updated list entry at its own index. -/
theorem getD_set_self {α : Type} (l : List α) (i : Nat) (a d : α) (h : i < l.length) :
    (l.set i a).getD i d = a := by
  simp [List.getD_eq_getElem?_getD, List.getElem?_set_eq_of_lt a h]

/-- Reading an updated list away from the updated index. -/
theorem getD_set_ne {α : Type} (l : List α) (i j : Nat) (a d : α) (h : i ≠ j) :
    (l.set i a).getD j d = l.getD j d := by
  simp [List.getD_eq_getElem?_getD, List.getElem?_set_ne h]

/-- Full characterization of CountMinSketch::inc: the counter at (`i`, `o`)
is incremented exactly when it is not saturated, no other counter of any
word changes, and the bookkeeping fields are untouched. -/
theorem inc_spec (s : CountMinSketch) (i o : Nat) (hi : i < s.table.length) :
    ((s.inc i o).1.blockMask = s.blockMask ∧ (s.inc i o).1.additions = s.additions ∧
     (s.inc i o).1.sampleSize = s.sampleSize ∧
     (s.inc i o).1.table.length = s.table.length) ∧
    ((s.inc i o).2 = true ↔ nibble (s.table.getD i 0) o ≠ 15) ∧
    (∀ q, q ≠ i → (s.inc i o).1.table.getD q 0 = s.table.getD q 0) ∧
    (∀ j, nibble ((s.inc i o).1.table.getD i 0) j =
      if nibble (s.table.getD i 0) o ≠ 15 ∧ j = o
      then nibble (s.table.getD i 0) o + 1
      else nibble (s.table.getD i 0) j) := by
  have ho2 : o <<< 2 = 4 * o := by rw [Nat.shiftLeft_eq]; ring
  have hone : (1 : Nat) <<< (4 * o) = 2 ^ (4 * o) := Nat.one_shiftLeft _
  unfold CountMinSketch.inc
  simp only [ho2]
  by_cases hc : s.table.getD i 0 &&& (15 <<< (4 * o)) = 15 <<< (4 * o)
  · -- saturated: no change
    rw [if_neg (by simpa using hc)]
    have hsat : nibble (s.table.getD i 0) o = 15 := (mask_check _ _).mp hc
    refine ⟨⟨rfl, rfl, rfl, rfl⟩, by rw [hsat]; simp, fun q _ => rfl, fun j => ?_⟩
    rw [if_neg (by rw [hsat]; simp)]
  · -- below saturation: increment the nibble
    rw [if_pos (by simpa using hc)]
    have hlt : nibble (s.table.getD i 0) o < 15 := by
      have h16 := nibble_lt (s.table.getD i 0) o
      have : nibble (s.table.getD i 0) o ≠ 15 := fun hh => hc ((mask_check _ _).mpr hh)
      omega
    refine ⟨⟨rfl, rfl, rfl, by simp⟩, ?_, fun q hq => ?_, fun j => ?_⟩
    · exact ⟨fun _ => Nat.ne_of_lt hlt, fun _ => rfl⟩
    · exact getD_set_ne _ _ _ _ _ (Ne.symm hq)
    · rw [getD_set_self _ _ _ _ hi, hone, nibble_add_pow _ _ _ hlt]
      by_cases hj : j = o
      · subst hj
        rw [if_pos rfl, if_pos ⟨Nat.ne_of_lt hlt, rfl⟩]
      · rw [if_neg hj, if_neg (fun hh => hj hh.2)]

/-- Anatomy of a counter position: the word lies in the two-word sub-block
`block + 2k + {0, 1}` selected by one hash bit. -/
theorem counterPosition_word (s : CountMinSketch) (h k : Nat) :
    (counterPosition s h k).1 =
      (h &&& s.blockMask) <<< 3 + ((rehash h >>> (k <<< 3)) &&& 1) + 2 * k ∧
    (rehash h >>> (k <<< 3)) &&& 1 ≤ 1 := by
  constructor
  · unfold counterPosition CountMinSketch.index_of
    simp only
    rw [show k <<< 1 = 2 * k from by rw [Nat.shiftLeft_eq]; ring]
  · rw [and_one]
    omega

/-- Distinct counter slots of the same hash live in distinct words. -/
theorem counterPosition_word_ne (s : CountMinSketch) (h : Nat) (k l : Nat)
    (hne : k ≠ l) : (counterPosition s h k).1 ≠ (counterPosition s h l).1 := by
  have hk := counterPosition_word s h k
  have hl := counterPosition_word s h l
  rw [hk.1, hl.1]
  have := hk.2
  have := hl.2
  omega

/-- The counter words of hash `h` sit within the eight-word block. -/
theorem counterPosition_word_lt (s : CountMinSketch) (h k : Nat) (hk : k < 4)
    (hwf : (h &&& s.blockMask) <<< 3 + 7 < s.table.length) :
    (counterPosition s h k).1 < s.table.length := by
  have hp := counterPosition_word s h k
  rw [hp.1]
  have := hp.2
  omega

set_option maxHeartbeats 2000000 in
/-- Full characterization of the four-increment phase of add: each of the
four counters of `h` (which live in four distinct words) becomes
`min (old + 1) 15`, every other counter of the table is untouched, the
`added` flag is set exactly when some counter was below 15, and the
bookkeeping fields are untouched. -/
theorem incAll_spec (s : CountMinSketch) (h : Nat)
    (hwf : (h &&& s.blockMask) <<< 3 + 7 < s.table.length) :
    ((s.incAll h).1.blockMask = s.blockMask ∧ (s.incAll h).1.additions = s.additions ∧
     (s.incAll h).1.sampleSize = s.sampleSize ∧
     (s.incAll h).1.table.length = s.table.length) ∧
    ((s.incAll h).2 = true ↔
      counterValue s h 0 ≠ 15 ∨ counterValue s h 1 ≠ 15 ∨
      counterValue s h 2 ≠ 15 ∨ counterValue s h 3 ≠ 15) ∧
    (∀ k, k < 4 →
      nibble ((s.incAll h).1.table.getD (counterPosition s h k).1 0)
          (counterPosition s h k).2
        = min (counterValue s h k + 1) 15) ∧
    (∀ q j, (∀ k, k < 4 → ¬(q = (counterPosition s h k).1 ∧ j = (counterPosition s h k).2)) →
      nibble ((s.incAll h).1.table.getD q 0) j = nibble (s.table.getD q 0) j) := by
  have e0 : s.index_of (rehash h) ((h &&& s.blockMask) <<< 3) 0 = counterPosition s h 0 := rfl
  have e1 : s.index_of (rehash h) ((h &&& s.blockMask) <<< 3) 1 = counterPosition s h 1 := rfl
  have e2 : s.index_of (rehash h) ((h &&& s.blockMask) <<< 3) 2 = counterPosition s h 2 := rfl
  have e3 : s.index_of (rehash h) ((h &&& s.blockMask) <<< 3) 3 = counterPosition s h 3 := rfl
  have hne : ∀ k l, k ≠ l →
      (counterPosition s h k).1 ≠ (counterPosition s h l).1 :=
    fun k l hkl => counterPosition_word_ne s h k l hkl
  have hi0 := counterPosition_word_lt s h 0 (by omega) hwf
  have hi1 := counterPosition_word_lt s h 1 (by omega) hwf
  have hi2 := counterPosition_word_lt s h 2 (by omega) hwf
  have hi3 := counterPosition_word_lt s h 3 (by omega) hwf
  have hs0 := inc_spec s (counterPosition s h 0).1 (counterPosition s h 0).2 hi0
  generalize hR0 : s.inc (counterPosition s h 0).1 (counterPosition s h 0).2 = r0 at hs0
  have hs1 := inc_spec r0.1 (counterPosition s h 1).1 (counterPosition s h 1).2
    (by rw [hs0.1.2.2.2]; exact hi1)
  generalize hR1 : r0.1.inc (counterPosition s h 1).1 (counterPosition s h 1).2 = r1 at hs1
  have hs2 := inc_spec r1.1 (counterPosition s h 2).1 (counterPosition s h 2).2
    (by rw [hs1.1.2.2.2, hs0.1.2.2.2]; exact hi2)
  generalize hR2 : r1.1.inc (counterPosition s h 2).1 (counterPosition s h 2).2 = r2 at hs2
  have hs3 := inc_spec r2.1 (counterPosition s h 3).1 (counterPosition s h 3).2
    (by rw [hs2.1.2.2.2, hs1.1.2.2.2, hs0.1.2.2.2]; exact hi3)
  generalize hR3 : r2.1.inc (counterPosition s h 3).1 (counterPosition s h 3).2 = r3 at hs3
  -- the original words at the four positions survive until their own step
  have w1 : r0.1.table.getD (counterPosition s h 1).1 0
      = s.table.getD (counterPosition s h 1).1 0 := hs0.2.2.1 _ (hne 1 0 (by omega))
  have w2 : r1.1.table.getD (counterPosition s h 2).1 0
      = s.table.getD (counterPosition s h 2).1 0 := by
    rw [hs1.2.2.1 _ (hne 2 1 (by omega)), hs0.2.2.1 _ (hne 2 0 (by omega))]
  have w3 : r2.1.table.getD (counterPosition s h 3).1 0
      = s.table.getD (counterPosition s h 3).1 0 := by
    rw [hs2.2.2.1 _ (hne 3 2 (by omega)), hs1.2.2.1 _ (hne 3 1 (by omega)),
        hs0.2.2.1 _ (hne 3 0 (by omega))]
  unfold CountMinSketch.incAll
  simp only [e0, e1, e2, e3, hR0, hR1, hR2, hR3]
  refine ⟨⟨?_, ?_, ?_, ?_⟩, ?_, ?_, ?_⟩
  · rw [hs3.1.1, hs2.1.1, hs1.1.1, hs0.1.1]
  · rw [hs3.1.2.1, hs2.1.2.1, hs1.1.2.1, hs0.1.2.1]
  · rw [hs3.1.2.2.1, hs2.1.2.2.1, hs1.1.2.2.1, hs0.1.2.2.1]
  · rw [hs3.1.2.2.2, hs2.1.2.2.2, hs1.1.2.2.2, hs0.1.2.2.2]
  · -- the added flag
    have f0 := hs0.2.1
    have f1 := hs1.2.1
    have f2 := hs2.2.1
    have f3 := hs3.2.1
    rw [w1] at f1
    rw [w2] at f2
    rw [w3] at f3
    simp only [Bool.or_eq_true, counterValue]
    rw [f0, f1, f2, f3]
    simp only [or_assoc]
  · -- the four selected counters
    intro k hk
    interval_cases k
    · -- counter 0: incremented at step 0, untouched afterwards
      rw [hs3.2.2.1 _ (hne 0 3 (by omega)), hs2.2.2.1 _ (hne 0 2 (by omega)),
          hs1.2.2.1 _ (hne 0 1 (by omega))]
      have := hs0.2.2.2 (counterPosition s h 0).2
      rw [this]
      unfold counterValue
      have hlt := nibble_lt (s.table.getD (counterPosition s h 0).1 0) (counterPosition s h 0).2
      by_cases hsat : nibble (s.table.getD (counterPosition s h 0).1 0) (counterPosition s h 0).2 = 15
      · rw [if_neg (fun hc => hc.1 hsat), hsat]
        omega
      · rw [if_pos ⟨hsat, rfl⟩]
        omega
    · rw [hs3.2.2.1 _ (hne 1 3 (by omega)), hs2.2.2.1 _ (hne 1 2 (by omega))]
      have := hs1.2.2.2 (counterPosition s h 1).2
      rw [w1] at this
      rw [this]
      unfold counterValue
      have hlt := nibble_lt (s.table.getD (counterPosition s h 1).1 0) (counterPosition s h 1).2
      by_cases hsat : nibble (s.table.getD (counterPosition s h 1).1 0) (counterPosition s h 1).2 = 15
      · rw [if_neg (fun hc => hc.1 hsat), hsat]
        omega
      · rw [if_pos ⟨hsat, rfl⟩]
        omega
    · rw [hs3.2.2.1 _ (hne 2 3 (by omega))]
      have := hs2.2.2.2 (counterPosition s h 2).2
      rw [w2] at this
      rw [this]
      unfold counterValue
      have hlt := nibble_lt (s.table.getD (counterPosition s h 2).1 0) (counterPosition s h 2).2
      by_cases hsat : nibble (s.table.getD (counterPosition s h 2).1 0) (counterPosition s h 2).2 = 15
      · rw [if_neg (fun hc => hc.1 hsat), hsat]
        omega
      · rw [if_pos ⟨hsat, rfl⟩]
        omega
    · have := hs3.2.2.2 (counterPosition s h 3).2
      rw [w3] at this
      rw [this]
      unfold counterValue
      have hlt := nibble_lt (s.table.getD (counterPosition s h 3).1 0) (counterPosition s h 3).2
      by_cases hsat : nibble (s.table.getD (counterPosition s h 3).1 0) (counterPosition s h 3).2 = 15
      · rw [if_neg (fun hc => hc.1 hsat), hsat]
        omega
      · rw [if_pos ⟨hsat, rfl⟩]
        omega
  · -- every other counter is untouched
    intro q j hq
    by_cases hq0 : q = (counterPosition s h 0).1
    · subst hq0
      have hj0 : j ≠ (counterPosition s h 0).2 := fun hh => hq 0 (by omega) ⟨rfl, hh⟩
      rw [hs3.2.2.1 _ (hne 0 3 (by omega)), hs2.2.2.1 _ (hne 0 2 (by omega)),
          hs1.2.2.1 _ (hne 0 1 (by omega))]
      have := hs0.2.2.2 j
      rw [this, if_neg (fun hh => hj0 hh.2)]
    · by_cases hq1 : q = (counterPosition s h 1).1
      · subst hq1
        have hj1 : j ≠ (counterPosition s h 1).2 := fun hh => hq 1 (by omega) ⟨rfl, hh⟩
        rw [hs3.2.2.1 _ (hne 1 3 (by omega)), hs2.2.2.1 _ (hne 1 2 (by omega))]
        have := hs1.2.2.2 j
        rw [this, if_neg (fun hh => hj1 hh.2), w1]
      · by_cases hq2 : q = (counterPosition s h 2).1
        · subst hq2
          have hj2 : j ≠ (counterPosition s h 2).2 := fun hh => hq 2 (by omega) ⟨rfl, hh⟩
          rw [hs3.2.2.1 _ (hne 2 3 (by omega))]
          have := hs2.2.2.2 j
          rw [this, if_neg (fun hh => hj2 hh.2), w2]
        · by_cases hq3 : q = (counterPosition s h 3).1
          · subst hq3
            have hj3 : j ≠ (counterPosition s h 3).2 := fun hh => hq 3 (by omega) ⟨rfl, hh⟩
            have := hs3.2.2.2 j
            rw [this, if_neg (fun hh => hj3 hh.2), w3]
          · rw [hs3.2.2.1 _ hq3, hs2.2.2.1 _ hq2, hs1.2.2.1 _ hq1, hs0.2.2.1 _ hq0]

/-- Counter offsets are nibble positions. -/
theorem counterPosition_off_lt (s : CountMinSketch) (h k : Nat) :
    (counterPosition s h k).2 < 16 := by
  show ((rehash h >>> (k <<< 3)) >>> 1) &&& 15 < 16
  rw [show (15:Nat) = 2 ^ 4 - 1 from rfl, Nat.and_pow_two_sub_one_eq_mod]
  exact Nat.mod_lt _ (by norm_num)

/-- CountMinSketch::reset halves every 4-bit counter (floor division) and
rescales additions by the quarter of the low-bit count; the other fields
survive. -/
theorem reset_spec (s : CountMinSketch) :
    s.reset.blockMask = s.blockMask ∧
    s.reset.sampleSize = s.sampleSize ∧
    s.reset.table.length = s.table.length ∧
    (∀ q j, j < 16 → nibble (s.reset.table.getD q 0) j = nibble (s.table.getD q 0) j / 2) ∧
    s.reset.additions = (s.additions - lowBitCount s.table / 4) / 2 := by
  refine ⟨rfl, rfl, by simp [CountMinSketch.reset], ?_, ?_⟩
  · intro q j hj
    show nibble ((s.table.map (fun w => (w >>> 1) &&& RESET_MASK)).getD q 0) j = _
    by_cases hq : q < s.table.length
    · rw [List.getD_eq_getElem?_getD, List.getElem?_map, List.getElem?_eq_getElem hq]
      rw [List.getD_eq_getElem?_getD, List.getElem?_eq_getElem hq]
      simp only [Option.map_some', Option.getD_some]
      exact halve_nibble _ _ hj
    · have hq' : s.table.length ≤ q := Nat.le_of_not_lt hq
      rw [List.getD_eq_getElem?_getD, List.getElem?_map,
          List.getElem?_eq_none hq', List.getD_eq_getElem?_getD,
          List.getElem?_eq_none hq']
      simp [nibble]
  · show (s.additions -
        ((s.table.foldl (fun acc w => acc + popCount64 (w &&& ONE_MASK)) 0) >>> 2)) >>> 1 = _
    rw [foldl_add_map (fun w => popCount64 (w &&& ONE_MASK)) s.table 0]
    rw [List.map_congr_left (fun w _ => popCount64_onemask w)]
    rw [Nat.shiftRight_eq_div_pow _ 2, Nat.shiftRight_eq_div_pow _ 1, Nat.zero_add,
        show (2:Nat) ^ 2 = 4 from rfl, show (2:Nat) ^ 1 = 2 from rfl]
    rfl

/-- C5: CountMinSketch::add for a hash whose block lies inside the table.
If all four counters of `h` are saturated at 15 nothing changes at all;
otherwise each of the four counters becomes `min (old + 1) 15`, every other
counter is untouched and `additions` is incremented -- unless the increment
reaches `sample_size`, in which case every counter of the table is halved
(a saturated 15 becomes 7) and `additions` becomes
`(sample_size - c/4) / 2` with `c` the number of counters of the
post-increment table whose low bit is set. -/
theorem c5_add_spec (s : CountMinSketch) (h : Nat)
    (hwf : (h &&& s.blockMask) <<< 3 + 7 < s.table.length) :
    ((¬(counterValue s h 0 ≠ 15 ∨ counterValue s h 1 ≠ 15 ∨
        counterValue s h 2 ≠ 15 ∨ counterValue s h 3 ≠ 15)) → s.add h = s) ∧
    ((counterValue s h 0 ≠ 15 ∨ counterValue s h 1 ≠ 15 ∨
      counterValue s h 2 ≠ 15 ∨ counterValue s h 3 ≠ 15) →
      (s.additions + 1 ≠ s.sampleSize →
        (s.add h).additions = s.additions + 1 ∧
        (s.add h).sampleSize = s.sampleSize ∧
        (s.add h).blockMask = s.blockMask ∧
        (s.add h).table.length = s.table.length ∧
        (∀ k, k < 4 →
          nibble ((s.add h).table.getD (counterPosition s h k).1 0)
              (counterPosition s h k).2
            = min (counterValue s h k + 1) 15) ∧
        (∀ q j,
          (∀ k, k < 4 → ¬(q = (counterPosition s h k).1 ∧ j = (counterPosition s h k).2)) →
          nibble ((s.add h).table.getD q 0) j = nibble (s.table.getD q 0) j)) ∧
      (s.additions + 1 = s.sampleSize →
        (s.add h).sampleSize = s.sampleSize ∧
        (s.add h).table.length = s.table.length ∧
        (∀ k, k < 4 →
          nibble ((s.add h).table.getD (counterPosition s h k).1 0)
              (counterPosition s h k).2
            = min (counterValue s h k + 1) 15 / 2) ∧
        (∀ q j, j < 16 →
          (∀ k, k < 4 → ¬(q = (counterPosition s h k).1 ∧ j = (counterPosition s h k).2)) →
          nibble ((s.add h).table.getD q 0) j = nibble (s.table.getD q 0) j / 2) ∧
        (s.add h).additions = (s.sampleSize - lowBitCount (s.incAll h).1.table / 4) / 2)) := by
  obtain ⟨⟨hbm, had, hss, hlen⟩, hflag, hsel, hunt⟩ := incAll_spec s h hwf
  constructor
  · -- all four counters saturated: add is the identity
    intro hnC
    push_neg at hnC
    obtain ⟨hC0, hC1, hC2, hC3⟩ := hnC
    have hsat : ∀ k, k < 4 →
        s.inc (counterPosition s h k).1 (counterPosition s h k).2 = (s, false) := by
      intro k hk
      have hck : nibble (s.table.getD (counterPosition s h k).1 0)
          (counterPosition s h k).2 = 15 := by
        interval_cases k
        · exact hC0
        · exact hC1
        · exact hC2
        · exact hC3
      have ho2 : (counterPosition s h k).2 <<< 2 = 4 * (counterPosition s h k).2 := by
        rw [Nat.shiftLeft_eq]; ring
      unfold CountMinSketch.inc
      simp only [ho2]
      rw [if_neg (by simpa using (mask_check _ _).mpr hck)]
    have hr : s.incAll h = (s, false) := by
      unfold CountMinSketch.incAll
      simp only [show s.index_of (rehash h) ((h &&& s.blockMask) <<< 3) 0
            = counterPosition s h 0 from rfl,
          show s.index_of (rehash h) ((h &&& s.blockMask) <<< 3) 1
            = counterPosition s h 1 from rfl,
          show s.index_of (rehash h) ((h &&& s.blockMask) <<< 3) 2
            = counterPosition s h 2 from rfl,
          show s.index_of (rehash h) ((h &&& s.blockMask) <<< 3) 3
            = counterPosition s h 3 from rfl,
          hsat 0 (by omega), hsat 1 (by omega), hsat 2 (by omega), hsat 3 (by omega),
          Bool.or_self]
    unfold CountMinSketch.add
    simp only [hr]
    rfl
  · intro hC
    have hflag2 : (s.incAll h).2 = true := hflag.mpr hC
    have hrec : ({ (s.incAll h).1 with additions := (s.incAll h).1.additions + 1 }
        : CountMinSketch).table = (s.incAll h).1.table := rfl
    constructor
    · -- no reset
      intro hne
      have hadd : s.add h
          = { (s.incAll h).1 with additions := (s.incAll h).1.additions + 1 } := by
        unfold CountMinSketch.add
        simp only [hflag2, eq_self_iff_true, if_true, had, hss]
        rw [if_neg hne]
      refine ⟨?_, ?_, ?_, ?_, ?_, ?_⟩
      · rw [hadd]
        show (s.incAll h).1.additions + 1 = s.additions + 1
        rw [had]
      · rw [hadd]; exact hss
      · rw [hadd]; exact hbm
      · rw [hadd]; exact hlen
      · intro k hk
        rw [hadd]
        exact hsel k hk
      · intro q j hqj
        rw [hadd]
        exact hunt q j hqj
    · -- reset
      intro heq
      have hadd : s.add h
          = CountMinSketch.reset
              { (s.incAll h).1 with additions := (s.incAll h).1.additions + 1 } := by
        unfold CountMinSketch.add
        simp only [hflag2, eq_self_iff_true, if_true, had, hss]
        rw [if_pos heq]
      obtain ⟨rbm, rss, rlen, rcnt, radd⟩ :=
        reset_spec { (s.incAll h).1 with additions := (s.incAll h).1.additions + 1 }
      rw [hrec] at rcnt rlen radd
      refine ⟨?_, ?_, ?_, ?_, ?_⟩
      · rw [hadd]; exact rss.trans hss
      · rw [hadd]; exact rlen.trans hlen
      · intro k hk
        rw [hadd, rcnt _ _ (counterPosition_off_lt s h k), hsel k hk]
      · intro q j hj hqj
        rw [hadd, rcnt _ _ hj, hunt q j hqj]
      · have hreca : ({ (s.incAll h).1 with additions := (s.incAll h).1.additions + 1 }
            : CountMinSketch).additions = (s.incAll h).1.additions + 1 := rfl
        rw [hadd, radd, hreca, had, heq]

theorem c5_add_spec_witness :
    (CountMinSketch.add
        { blockMask := 0, table := List.replicate 8 0, additions := 0, sampleSize := 10 }
        5).additions = 1 :=
  (((c5_add_spec
      { blockMask := 0, table := List.replicate 8 0, additions := 0, sampleSize := 10 }
      5 (by decide)).2 (by decide)).1 (by decide)).1

/-! ## Theorems: admission (C7) and the climb clamp (C8) -/

/-- Claim C7: for every pair of keys and every sketch state, `admit(c, v)`
returns true whenever the sketch estimate of the candidate strictly exceeds
the victim's, and returns false whenever the candidate's estimate is at most
the victim's and both estimates are at most the hashdos threshold 6; neither
case consults the RNG (the result is `some`, the determined branches). -/
theorem c7_admit_determinism (sk : CountMinSketch) (c v : Nat) :
    (sk.estimate v < sk.estimate c → tlfuAdmit sk c v = some true) ∧
    (sk.estimate c ≤ sk.estimate v → sk.estimate c ≤ ADMIT_HASHDOS_THRESHOLD →
      sk.estimate v ≤ ADMIT_HASHDOS_THRESHOLD → tlfuAdmit sk c v = some false) := by
  unfold tlfuAdmit ADMIT_HASHDOS_THRESHOLD
  refine ⟨fun h => ?_, fun h1 h2 h3 => ?_⟩
  · rw [if_pos h]
  · rw [if_neg (by omega), if_neg (by omega)]

set_option maxRecDepth 40000 in
/-- Witness for C7 at a concrete fresh sketch: both estimates are 0 ≤ 6, and
admit returns `some false`. -/
theorem c7_admit_determinism_witness :
    (CountMinSketch.new 64).estimate 1 ≤ (CountMinSketch.new 64).estimate 2 ∧
    tlfuAdmit (CountMinSketch.new 64) 1 2 = some false :=
  ⟨by decide,
   (c7_admit_determinism (CountMinSketch.new 64) 1 2).2 (by decide) (by decide) (by decide)⟩

/-- Claim C8 counterexample: with window capacity 10 and a pre-clamp amount
of 62 (reachable: the f32 step is ±0.0625·size, e.g. ±62.5 at size 1000 with
the default 1%-of-1000 window), the clamp sets the amount to exactly the
window capacity, so `|amount| < window.capacity` fails. -/
theorem c8_climb_clamp_counterexample :
    climbClamp 62 10 = 10 ∧ ¬ ((climbClamp 62 10).natAbs < 10) := by decide

/-- Claim C8 (amended): for window capacity at least 1, after the climb clamp
the amount satisfies −(capacity − 1) ≤ amount ≤ capacity: a negative amount
never exceeds capacity − 1 in magnitude (the window keeps at least one
entry), while a positive amount is clamped to at most capacity — it can equal
the capacity, not stay strictly below it. -/
theorem c8_climb_clamp_bounds (a : Int) (cap : Nat) (h : 1 ≤ cap) :
    -((cap : Int) - 1) ≤ climbClamp a cap ∧ climbClamp a cap ≤ (cap : Int) := by
  simp only [climbClamp]
  split_ifs <;> constructor <;> omega

/-- Witness for C8 at capacity 10, pre-clamp amount −62. -/
theorem c8_climb_clamp_bounds_witness :
    1 ≤ 10 ∧ (-((10 : Int) - 1) ≤ climbClamp (-62) 10 ∧ climbClamp (-62) 10 ≤ (10 : Int)) :=
  ⟨by decide, c8_climb_clamp_bounds (-62) 10 (by decide)⟩

/-! ## Theorems: CLOCK-Pro adaptive cold target (C4) -/

namespace ClockProState

/-- Reorganizing the cold hand leaves the memory targets unchanged. -/
theorem reorganize_cold_mem (s : ClockProState) (m : MetaData) :
    (s._reorganize_cold m).mem_cold = s.mem_cold ∧
    (s._reorganize_cold m).mem_max = s.mem_max := by
  unfold _reorganize_cold
  split <;> exact ⟨rfl, rfl⟩

/-- Reorganizing the hot hand leaves the memory targets unchanged. -/
theorem reorganize_hot_mem (s : ClockProState) (m : MetaData) :
    (s._reorganize_hot m).mem_cold = s.mem_cold ∧
    (s._reorganize_hot m).mem_max = s.mem_max := by
  unfold _reorganize_hot
  split <;> exact ⟨rfl, rfl⟩

/-- Reorganizing the test hand leaves the memory targets unchanged. -/
theorem reorganize_test_mem (s : ClockProState) (m : MetaData) :
    (s._reorganize_test m).mem_cold = s.mem_cold ∧
    (s._reorganize_test m).mem_max = s.mem_max := by
  unfold _reorganize_test
  split <;> exact ⟨rfl, rfl⟩

/-- Ring removal leaves the memory targets unchanged. -/
theorem meta_del_mem (s : ClockProState) (i : Nat) :
    (s._meta_del i).mem_cold = s.mem_cold ∧ (s._meta_del i).mem_max = s.mem_max := by
  simp only [_meta_del]
  split_ifs <;> exact ⟨rfl, rfl⟩

/-- One test-hand step: mem_max is unchanged and mem_cold shrinks by at most
one, never below 1. -/
theorem hand_test_mem (s : ClockProState) (m : MetaData) :
    (s._hand_test m).2.1.mem_max = s.mem_max ∧
    (s._hand_test m).2.1.mem_cold ≤ s.mem_cold ∧
    s.mem_cold - 1 ≤ (s._hand_test m).2.1.mem_cold ∧
    (1 ≤ s.mem_cold → 1 ≤ (s._hand_test m).2.1.mem_cold) := by
  unfold _hand_test
  by_cases h1 : s.hand_test = s.hand_cold <;>
    [rw [if_pos h1]; rw [if_neg h1]]
  · generalize hS : s._reorganize_cold m = s0
    have h0 : s0.mem_cold = s.mem_cold ∧ s0.mem_max = s.mem_max := by
      rw [← hS]; exact s.reorganize_cold_mem m
    by_cases h2 : (m.entryAt s0.hand_test).clock_info.2 = TEST_PAGE <;>
      [rw [if_pos h2]; rw [if_neg h2]]
    · have hd := s0.meta_del_mem s0.hand_test
      simp only
      split_ifs <;> omega
    · simp only
      omega
  · by_cases h2 : (m.entryAt s.hand_test).clock_info.2 = TEST_PAGE <;>
      [rw [if_pos h2]; rw [if_neg h2]]
    · have hd := s.meta_del_mem s.hand_test
      simp only
      split_ifs <;> omega
    · exact ⟨rfl, Nat.le_refl _, Nat.sub_le _ _, fun h => h⟩

/-- The test-hand while loop: mem_max is unchanged, mem_cold never grows and
never drops below 1. -/
theorem handTestLoop_mem (fuel : Nat) :
    ∀ (acc : Option Nat) (s : ClockProState) (m : MetaData),
    (handTestLoop fuel acc s m).2.1.mem_max = s.mem_max ∧
    (handTestLoop fuel acc s m).2.1.mem_cold ≤ s.mem_cold ∧
    (1 ≤ s.mem_cold → 1 ≤ (handTestLoop fuel acc s m).2.1.mem_cold) := by
  induction fuel with
  | zero => exact fun acc s m => ⟨rfl, Nat.le_refl _, fun h => h⟩
  | succ n ih =>
    intro acc s m
    unfold handTestLoop
    split
    · simp only
      have h1 := s.hand_test_mem m
      have h2 := ih (s._hand_test m).1 (s._hand_test m).2.1 (s._hand_test m).2.2
      exact ⟨by rw [h2.1, h1.1], by have := h2.2.1; omega,
             fun h => h2.2.2 (h1.2.2.2 h)⟩
    · exact ⟨rfl, Nat.le_refl _, fun h => h⟩

/-- One hot-hand step leaves the memory targets unchanged. -/
theorem hand_hot_mem (s : ClockProState) (m : MetaData) :
    (s._hand_hot m).1.mem_cold = s.mem_cold ∧ (s._hand_hot m).1.mem_max = s.mem_max := by
  unfold _hand_hot
  by_cases h1 : s.hand_hot = s.hand_test <;>
    [rw [if_pos h1]; rw [if_neg h1]]
  · generalize hS : s._reorganize_test m = s0
    have h0 : s0.mem_cold = s.mem_cold ∧ s0.mem_max = s.mem_max := by
      rw [← hS]; exact s.reorganize_test_mem m
    simp only
    split_ifs <;> exact ⟨h0.1, h0.2⟩
  · simp only
    split_ifs <;> exact ⟨rfl, rfl⟩

/-- The hot-hand while loop leaves the memory targets unchanged. -/
theorem handHotLoop_mem (fuel : Nat) :
    ∀ (s : ClockProState) (m : MetaData),
    (handHotLoop fuel s m).1.mem_cold = s.mem_cold ∧
    (handHotLoop fuel s m).1.mem_max = s.mem_max := by
  induction fuel with
  | zero => exact fun s m => ⟨rfl, rfl⟩
  | succ n ih =>
    intro s m
    unfold handHotLoop
    split
    · simp only
      have h1 := s.hand_hot_mem m
      have h2 := ih (s._hand_hot m).1 (s._hand_hot m).2
      exact ⟨by rw [h2.1, h1.1], by rw [h2.2, h1.2]⟩
    · exact ⟨rfl, rfl⟩

/-- One cold-hand step: mem_max is unchanged, mem_cold never grows and never
drops below 1. -/
theorem hand_cold_mem (fuel : Nat) (s : ClockProState) (m : MetaData) :
    (_hand_cold fuel s m).2.1.mem_max = s.mem_max ∧
    (_hand_cold fuel s m).2.1.mem_cold ≤ s.mem_cold ∧
    (1 ≤ s.mem_cold → 1 ≤ (_hand_cold fuel s m).2.1.mem_cold) := by
  unfold _hand_cold
  simp only
  split_ifs with hcold href
  · -- referenced COLD page: counts move, mem untouched, then the hot loop
    have h2 := handHotLoop_mem fuel
      { s with count_cold := s.count_cold - 1, count_hot := s.count_hot + 1,
               hand_cold := ringNext s.ring s.root s.hand_cold }
      (m.updateEntry s.hand_cold (fun en => { en with clock_info := (false, HOT_PAGE) }))
    refine ⟨?_, ?_, ?_⟩
    · exact h2.2
    · exact Nat.le_of_eq h2.1
    · intro h; rw [h2.1]; exact h
  · -- unreferenced COLD page: test conversion, test loop, hot loop
    generalize hT : handTestLoop fuel none
      { s with count_cold := s.count_cold - 1, count_test := s.count_test + 1 }
      (m.updateEntry s.hand_cold (fun en => { en with clock_info := (false, TEST_PAGE) })) = r
    have h1 : r.2.1.mem_max = s.mem_max ∧ r.2.1.mem_cold ≤ s.mem_cold ∧
        (1 ≤ s.mem_cold → 1 ≤ r.2.1.mem_cold) := by
      rw [← hT]
      exact handTestLoop_mem fuel none _ _
    have h2 := handHotLoop_mem fuel
      { r.2.1 with hand_cold := ringNext r.2.1.ring r.2.1.root r.2.1.hand_cold } r.2.2
    refine ⟨?_, ?_, ?_⟩
    · rw [h2.2]; exact h1.1
    · rw [h2.1]; exact h1.2.1
    · intro h; rw [h2.1]; exact h1.2.2 h
  · -- not a COLD page: only the hand advances, then the hot loop
    have h2 := handHotLoop_mem fuel
      { s with hand_cold := ringNext s.ring s.root s.hand_cold } m
    exact ⟨h2.2, Nat.le_of_eq h2.1, fun h => by rw [h2.1]; exact h⟩

/-- The eviction loop: mem_max is unchanged, mem_cold never grows and never
drops below 1. -/
theorem evictLoop_mem (fuel : Nat) :
    ∀ (n : Nat) (acc : Option Nat × Option Nat) (s : ClockProState) (m : MetaData),
    (evictLoop fuel n acc s m).2.1.mem_max = s.mem_max ∧
    (evictLoop fuel n acc s m).2.1.mem_cold ≤ s.mem_cold ∧
    (1 ≤ s.mem_cold → 1 ≤ (evictLoop fuel n acc s m).2.1.mem_cold) := by
  intro n
  induction n with
  | zero => exact fun acc s m => ⟨rfl, Nat.le_refl _, fun h => h⟩
  | succ k ih =>
    intro acc s m
    unfold evictLoop
    split
    · simp only
      have h1 := hand_cold_mem fuel s m
      have h2 := ih (_hand_cold fuel s m).1 (_hand_cold fuel s m).2.1 (_hand_cold fuel s m).2.2
      exact ⟨by rw [h2.1, h1.1], by have := h2.2.1; omega,
             fun h => h2.2.2 (h1.2.2 h)⟩
    · exact ⟨rfl, Nat.le_refl _, fun h => h⟩

/-- _meta_add: mem_max is unchanged, mem_cold never grows and never drops
below 1 (the insertion itself only touches the ring and the hands). -/
theorem meta_add_mem (fuel : Nat) (s : ClockProState) (m : MetaData) (index : Nat) :
    (_meta_add fuel s m index).2.1.mem_max = s.mem_max ∧
    (_meta_add fuel s m index).2.1.mem_cold ≤ s.mem_cold ∧
    (1 ≤ s.mem_cold → 1 ≤ (_meta_add fuel s m index).2.1.mem_cold) := by
  unfold _meta_add _evict
  have h1 := evictLoop_mem fuel fuel (none, none) s m
  generalize hE : evictLoop fuel fuel (none, none) s m = r at h1
  simp only
  split_ifs <;> simp only <;> exact ⟨h1.1, h1.2.1, h1.2.2⟩

/-- Policy::remove leaves the memory targets unchanged. -/
theorem remove_mem (s : ClockProState) (m : MetaData) (index : Nat) :
    (s.remove m index).1.mem_cold = s.mem_cold ∧
    (s.remove m index).1.mem_max = s.mem_max := by
  unfold remove
  simp only
  split_ifs <;> exact ⟨(meta_del_mem _ _).1, (meta_del_mem _ _).2⟩

/-- ClockPro::set: mem_max is unchanged and, starting from a state with
1 ≤ mem_cold ≤ mem_max, the new mem_cold stays in [1, mem_max] and grows by
at most one. -/
theorem set_mem (fuel : Nat) (s : ClockProState) (m : MetaData) (index : Nat)
    (hlo : 1 ≤ s.mem_cold) (hhi : s.mem_cold ≤ s.mem_max) :
    (set fuel s m index).2.1.mem_max = s.mem_max ∧
    1 ≤ (set fuel s m index).2.1.mem_cold ∧
    (set fuel s m index).2.1.mem_cold ≤ s.mem_max ∧
    (set fuel s m index).2.1.mem_cold ≤ s.mem_cold + 1 := by
  unfold set
  simp only
  split_ifs with h1 h2 hb
  · -- new entry: _meta_add then the cold count bump
    have h := meta_add_mem fuel s m index
    exact ⟨h.1, h.2.2 hlo, Nat.le_trans h.2.1 hhi, Nat.le_trans h.2.1 (Nat.le_succ _)⟩
  · -- TEST page promotion, cold target bumped
    generalize hD : ({ s with mem_cold := s.mem_cold + 1 } : ClockProState)._meta_del index = s2
    have hd : s2.mem_cold = s.mem_cold + 1 ∧ s2.mem_max = s.mem_max := by
      rw [← hD]; exact meta_del_mem _ _
    have h := meta_add_mem fuel { s2 with count_test := s2.count_test - 1 }
      (m.updateEntry index (fun en => { en with clock_info := (false, HOT_PAGE) })) index
    exact ⟨h.1.trans hd.2,
           h.2.2 (show 1 ≤ s2.mem_cold by omega),
           Nat.le_trans h.2.1 (show s2.mem_cold ≤ s.mem_max by omega),
           Nat.le_trans h.2.1 (show s2.mem_cold ≤ s.mem_cold + 1 by omega)⟩
  · -- TEST page promotion, cold target already at mem_max
    generalize hD : s._meta_del index = s2
    have hd : s2.mem_cold = s.mem_cold ∧ s2.mem_max = s.mem_max := by
      rw [← hD]; exact meta_del_mem _ _
    have h := meta_add_mem fuel { s2 with count_test := s2.count_test - 1 }
      (m.updateEntry index (fun en => { en with clock_info := (false, HOT_PAGE) })) index
    exact ⟨h.1.trans hd.2,
           h.2.2 (show 1 ≤ s2.mem_cold by omega),
           Nat.le_trans h.2.1 (show s2.mem_cold ≤ s.mem_max by omega),
           Nat.le_trans h.2.1 (show s2.mem_cold ≤ s.mem_cold + 1 by omega)⟩
  · -- resident COLD or HOT page: only the reference bit is set
    exact ⟨rfl, hlo, hhi, Nat.le_succ_of_le (Nat.le_refl _)⟩

end ClockProState

/-- Claim C4 counterexample: a fresh CLOCK-Pro of capacity 4 starts with
mem_cold = 4 — the full capacity — not mem_max/2 = 2, and outside the
claimed interval [mem_max/4, 3·mem_max/4] = [1, 3]. -/
theorem c4_mem_cold_counterexample :
    (ClockPro.new 4 (MetaData.new 8)).1.mem_cold = 4 ∧
    (ClockPro.new 4 (MetaData.new 8)).1.mem_cold ≠ 4 / 2 ∧
    ¬ (ClockPro.new 4 (MetaData.new 8)).1.mem_cold ≤ 3 * 4 / 4 := by
  decide

/-- Claim C4 (amended): a fresh instance has mem_cold = mem_max (the full
capacity, not mem_max/2), and the operations keep mem_cold within
[1, mem_max] (not [mem_max/4, 3·mem_max/4]): starting from
1 ≤ mem_cold ≤ mem_max, set changes mem_cold by at most +1 and keeps it in
the interval (the TEST promotion grows it by one, capped at mem_max),
remove and hand_hot leave it unchanged, and hand_test shrinks it by at most
one, never below 1; access does not touch the policy state at all. -/
theorem c4_mem_cold_bounds (size fuel : Nat) (s : ClockProState) (m : MetaData)
    (index : Nat) (hlo : 1 ≤ s.mem_cold) (hhi : s.mem_cold ≤ s.mem_max) :
    (ClockPro.new size (MetaData.new (size * 2))).1.mem_cold = size ∧
    ((ClockProState.set fuel s m index).2.1.mem_max = s.mem_max ∧
     1 ≤ (ClockProState.set fuel s m index).2.1.mem_cold ∧
     (ClockProState.set fuel s m index).2.1.mem_cold ≤ s.mem_max ∧
     (ClockProState.set fuel s m index).2.1.mem_cold ≤ s.mem_cold + 1) ∧
    ((s.remove m index).1.mem_cold = s.mem_cold ∧
     (s.remove m index).1.mem_max = s.mem_max) ∧
    ((s._hand_test m).2.1.mem_max = s.mem_max ∧
     (s._hand_test m).2.1.mem_cold ≤ s.mem_cold ∧
     s.mem_cold - 1 ≤ (s._hand_test m).2.1.mem_cold ∧
     1 ≤ (s._hand_test m).2.1.mem_cold) ∧
    ((ClockProState._hand_cold fuel s m).2.1.mem_max = s.mem_max ∧
     1 ≤ (ClockProState._hand_cold fuel s m).2.1.mem_cold ∧
     (ClockProState._hand_cold fuel s m).2.1.mem_cold ≤ s.mem_max) ∧
    ((s._hand_hot m).1.mem_cold = s.mem_cold ∧
     (s._hand_hot m).1.mem_max = s.mem_max) := by
  have ht := s.hand_test_mem m
  have hc := ClockProState.hand_cold_mem fuel s m
  refine ⟨rfl, s.set_mem fuel m index hlo hhi, s.remove_mem m index,
    ⟨ht.1, ht.2.1, ht.2.2.1, ht.2.2.2 hlo⟩,
    ⟨hc.1, hc.2.2 hlo, Nat.le_trans hc.2.1 hhi⟩, s.hand_hot_mem m⟩

/-- Witness for C4 on the fresh capacity-5 instance (mem_cold = mem_max = 5),
setting the first created entry with fuel 4. -/
theorem c4_mem_cold_bounds_witness :
    (1 ≤ (ClockPro.new 5 (MetaData.new 10)).1.mem_cold ∧
     (ClockPro.new 5 (MetaData.new 10)).1.mem_cold ≤ (ClockPro.new 5 (MetaData.new 10)).1.mem_max) ∧
    (ClockPro.new 5 (MetaData.new 10)).1.mem_cold = 5 ∧
    (ClockProState.set 4 (ClockPro.new 5 (MetaData.new 10)).1 (ClockPro.new 5 (MetaData.new 10)).2
        1).2.1.mem_max = (ClockPro.new 5 (MetaData.new 10)).1.mem_max :=
  ⟨⟨by decide, by decide⟩,
   (c4_mem_cold_bounds 5 4 (ClockPro.new 5 (MetaData.new 10)).1
      (ClockPro.new 5 (MetaData.new 10)).2 1 (by decide) (by decide)).1.trans (by decide),
   (c4_mem_cold_bounds 5 4 (ClockPro.new 5 (MetaData.new 10)).1
      (ClockPro.new 5 (MetaData.new 10)).2 1 (by decide) (by decide)).2.1.1⟩

/-! ## Theorems: ClockPro access (C10 and C1) -/

/-- Updating an in-range entry is observed at its own index. -/
theorem MetaData.entryAt_updateEntry_self (m : MetaData) (i : Nat) (f : Entry → Entry)
    (h : i < m.data.length) : (m.updateEntry i f).entryAt i = f (m.entryAt i) := by
  simp [MetaData.updateEntry, MetaData.entryAt, List.getD_eq_getElem?_getD,
        List.getElem?_set_eq_of_lt _ h]

/-- Updating an entry leaves other indices unchanged. -/
theorem MetaData.entryAt_updateEntry_ne (m : MetaData) (i j : Nat) (f : Entry → Entry)
    (h : i ≠ j) : (m.updateEntry i f).entryAt j = m.entryAt j := by
  simp [MetaData.updateEntry, MetaData.entryAt, List.getD_eq_getElem?_getD,
        List.getElem?_set_ne h]

/-- Claim C10: for every resident entry whose page class is TEST and that is
not expired at the clock value `now` the access consults, ClockPro::access
returns None (a miss) — yet it still sets the entry's reference bit to true,
so a later hand movement sees the TEST page as referenced even though the
caller saw a miss. -/
theorem c10_test_access_sets_reference (m : MetaData) (key : String) (now i : Nat)
    (hres : m.get key = some i)
    (hclass : (m.entryAt i).clock_info.2 = TEST_PAGE)
    (hexp : (m.entryAt i).expire = 0 ∨ now < (m.entryAt i).expire) :
    (ClockPro.access m key now).1 = none ∧
    ((ClockPro.access m key now).2.entryAt i).clock_info = (true, TEST_PAGE) := by
  have hlen : i < m.data.length := by
    by_contra hn
    have hdef : m.entryAt i = default := by
      simp only [MetaData.entryAt, List.getD_eq_getElem?_getD]
      rw [List.getElem?_eq_none (by omega)]
      rfl
    rw [hdef] at hclass
    exact absurd hclass (by decide)
  unfold ClockPro.access
  rw [hres]
  simp only
  rw [if_neg (by omega)]
  rw [if_neg (by simp [hclass])]
  refine ⟨rfl, ?_⟩
  simp only
  rw [m.entryAt_updateEntry_self i _ hlen, hclass]

/-- Witness for C10 on a concrete two-entry arena holding one unexpired TEST
page. -/
theorem c10_test_access_sets_reference_witness :
    (MetaData.get
        { keys := [("a", 1)],
          data := [Entry.new "__root:1__",
                   { Entry.new "a" with index := 1, link_id := 1, clock_info := (false, 3) }],
          empty := [], meta_key_count := 1 } "a" = some 1) ∧
    ((ClockPro.access
        { keys := [("a", 1)],
          data := [Entry.new "__root:1__",
                   { Entry.new "a" with index := 1, link_id := 1, clock_info := (false, 3) }],
          empty := [], meta_key_count := 1 } "a" 5).1 = none ∧
     (((ClockPro.access
        { keys := [("a", 1)],
          data := [Entry.new "__root:1__",
                   { Entry.new "a" with index := 1, link_id := 1, clock_info := (false, 3) }],
          empty := [], meta_key_count := 1 } "a" 5).2.entryAt 1).clock_info = (true, TEST_PAGE))) :=
  ⟨by decide,
   c10_test_access_sets_reference
     { keys := [("a", 1)],
       data := [Entry.new "__root:1__",
                { Entry.new "a" with index := 1, link_id := 1, clock_info := (false, 3) }],
       empty := [], meta_key_count := 1 } "a" 5 1 (by decide) (by decide) (by decide)⟩

set_option maxRecDepth 200000 in
/-- Claim C1: the access hit/miss rule is broken by a clock mismatch in the
source.  ClockProCore::set stamps `expire` from the engine's Instant-based
clock (nanoseconds since engine start), but ClockPro::access compares that
engine-relative expiry against `SystemTime::now()` since the UNIX epoch — a
different, far larger clock.  Concretely: on a fresh capacity-2 engine whose
clock reads 0, set("a", ttl 10^9 ns) stores expire = 10^9; "a" is resident as
a COLD page and its engine deadline has not passed, yet access("a") at a
realistic wall-clock reading (1.7·10^18 ns since the epoch) returns None.
Had access used the engine clock (reading 1 ns), it would return the index,
as the claim requires. -/
theorem c1_wall_clock_expiry_bug :
    ((ClockProCore.set (ClockProCore.new 2 0) "a" 1000000000 0 10).1.metadata.get "a"
      = some 166) ∧
    (((ClockProCore.set (ClockProCore.new 2 0) "a" 1000000000 0 10).1.metadata.entryAt
        166).clock_info.2 = COLD_PAGE) ∧
    (((ClockProCore.set (ClockProCore.new 2 0) "a" 1000000000 0 10).1.metadata.entryAt
        166).expire = 1000000000) ∧
    ((ClockPro.access
        (ClockProCore.set (ClockProCore.new 2 0) "a" 1000000000 0 10).1.metadata
        "a" 1700000000000000000).1 = none) ∧
    ((ClockPro.access
        (ClockProCore.set (ClockProCore.new 2 0) "a" 1000000000 0 10).1.metadata
        "a" 1).1 = some 166) := by
  decide

/-! ## Theorems: timer wheel find_index (C6) -/

/-- Claim C6 counterexample: at nanos 0 and expire 2^31 (duration ≈ 2.1 s)
the source's find_index picks tier 0 slot 2, while the claim's rule — the
first tier whose own span strictly exceeds the duration — picks tier 1 (tier
0's span 2^30 does not exceed 2^31): the two disagree. -/
theorem c6_find_index_counterexample :
    TimerWheel.find_index 0 (2 ^ 31) = (0, 2) ∧
    TimerWheel.find_bucket_claim 0 (2 ^ 31) = (1, 0) ∧
    TimerWheel.find_index 0 (2 ^ 31) ≠ TimerWheel.find_bucket_claim 0 (2 ^ 31) := by
  decide

/-- Claim C6 (amended): for every expire not less than the wheel's nanos,
find_index computes duration = expire − nanos, scans the tiers ascending and
assigns the entry to the first tier whose reach — the span of the NEXT tier,
`spans[i+1]` — strictly exceeds the duration, with slot
`(expire >>> shift_i) &&& (buckets_i − 1)`; durations at or beyond the last
span (2^49 ns ≈ 6.5 days) map to the last-tier singleton (4, 0). -/
theorem c6_find_index_spec (nanos expire : Nat) (hexp : nanos ≤ expire) :
    (expire - nanos < 2 ^ 49 →
      ∃ t, TimerWheel.find_index nanos expire
            = (t, (expire >>> TimerWheel.shift.getD t 0) &&& (TimerWheel.buckets.getD t 0 - 1))
          ∧ expire - nanos < TimerWheel.spans.getD (t + 1) 0
          ∧ ∀ j, j < t → TimerWheel.spans.getD (j + 1) 0 ≤ expire - nanos) ∧
    (2 ^ 49 ≤ expire - nanos → TimerWheel.find_index nanos expire = (4, 0)) := by
  have s1 : TimerWheel.spans.getD 1 0 = 68719476736 := rfl
  have s2 : TimerWheel.spans.getD 2 0 = 4398046511104 := rfl
  have s3 : TimerWheel.spans.getD 3 0 = 140737488355328 := rfl
  have s4 : TimerWheel.spans.getD 4 0 = 562949953421312 := rfl
  have s5 : TimerWheel.spans.getD 5 0 = 562949953421312 := rfl
  have hr5 : List.range 5 = [0, 1, 2, 3, 4] := rfl
  simp only [TimerWheel.find_index, hr5]
  by_cases h0 : expire - nanos < 68719476736
  · rw [List.find?_cons_of_pos _ (by simpa [s1] using h0)]
    refine ⟨fun _ => ⟨0, rfl, by simpa [s1] using h0, fun j hj => absurd hj (by omega)⟩,
      fun hge => absurd hge (by omega)⟩
  · rw [List.find?_cons_of_neg _ (by simpa [s1] using h0)]
    by_cases h1 : expire - nanos < 4398046511104
    · rw [List.find?_cons_of_pos _ (by simpa [s2] using h1)]
      refine ⟨fun _ => ⟨1, rfl, by simpa [s2] using h1, fun j hj => ?_⟩,
        fun hge => absurd hge (by omega)⟩
      interval_cases j
      simpa [s1] using h0
    · rw [List.find?_cons_of_neg _ (by simpa [s2] using h1)]
      by_cases h2 : expire - nanos < 140737488355328
      · rw [List.find?_cons_of_pos _ (by simpa [s3] using h2)]
        refine ⟨fun _ => ⟨2, rfl, by simpa [s3] using h2, fun j hj => ?_⟩,
          fun hge => absurd hge (by omega)⟩
        interval_cases j
        · simpa [s1] using h0
        · simpa [s2] using h1
      · rw [List.find?_cons_of_neg _ (by simpa [s3] using h2)]
        by_cases h3 : expire - nanos < 562949953421312
        · rw [List.find?_cons_of_pos _ (by simpa [s4] using h3)]
          refine ⟨fun _ => ⟨3, rfl, by simpa [s4] using h3, fun j hj => ?_⟩,
            fun hge => absurd hge (by omega)⟩
          interval_cases j
          · simpa [s1] using h0
          · simpa [s2] using h1
          · simpa [s3] using h2
        · rw [List.find?_cons_of_neg _ (by simpa [s4] using h3)]
          rw [List.find?_cons_of_neg _ (by simpa [s5] using h3)]
          rw [List.find?_nil]
          exact ⟨fun hlt => absurd hlt (by omega), fun _ => rfl⟩

/-- Witness for C6 at nanos 0, expire 100 ns. -/
theorem c6_find_index_spec_witness :
    (0 : Nat) ≤ 100 ∧
    ((100 - 0 < 2 ^ 49 →
      ∃ t, TimerWheel.find_index 0 100
            = (t, (100 >>> TimerWheel.shift.getD t 0) &&& (TimerWheel.buckets.getD t 0 - 1))
          ∧ 100 - 0 < TimerWheel.spans.getD (t + 1) 0
          ∧ ∀ j, j < t → TimerWheel.spans.getD (j + 1) 0 ≤ 100 - 0) ∧
     (2 ^ 49 ≤ 100 - 0 → TimerWheel.find_index 0 100 = (4, 0))) :=
  ⟨by decide, c6_find_index_spec 0 100 (by decide)⟩

/-! ## Theorems: intrusive list removal (C9) -/

/-- Claim C9 counterexample: on the wheel side, removal with a mismatched
`wheel_link_id` is not a no-op returning `None` — the source panics
("link id not match"), modelled as `none`.  Here the list has id 5 while the
entry carries wheel_link_id 7. -/
theorem c9_remove_wheel_counterexample :
    Link.remove_wheel { id := 5, root := 0, len := 1, capacity := 10 } 1
      { keys := [("a", 1)]
        data := [Entry.new "__root:5__", { Entry.new "a" with index := 1, wheel_link_id := 7 }]
        empty := [], meta_key_count := 1 } = none := by decide

/-- Claim C9 (amended): policy-side `Link::remove` with a mismatched
`link_id` is a no-op returning `None`, leaving both the list and the arena
unchanged; the wheel-side `remove_wheel` with a mismatched `wheel_link_id`
is not a no-op — it panics instead (modelled as `none`). -/
theorem c9_remove_mismatch (l : Link) (i : Nat) (m : MetaData)
    (h : (m.entryAt i).link_id ≠ l.id) :
    l.remove i m = (none, l, m) ∧
    ∀ l' : Link, (m.entryAt i).wheel_link_id ≠ l'.id → l'.remove_wheel i m = none := by
  refine ⟨?_, fun l' h' => ?_⟩
  · unfold Link.remove
    by_cases hr : i = l.root
    · rw [if_pos hr]
    · rw [if_neg hr, if_pos h]
  · unfold Link.remove_wheel
    rw [if_pos h']

/-- Witness for C9 on a concrete two-entry arena: the entry has link_id 9,
the list id 5, and removal returns `(none, l, m)` unchanged. -/
theorem c9_remove_mismatch_witness :
    (({ keys := [("a", 1)]
        data := [Entry.new "__root:5__", { Entry.new "a" with index := 1, link_id := 9 }]
        empty := [], meta_key_count := 1 } : MetaData).entryAt 1).link_id ≠ 5 ∧
    Link.remove { id := 5, root := 0, len := 1, capacity := 10 } 1
      { keys := [("a", 1)]
        data := [Entry.new "__root:5__", { Entry.new "a" with index := 1, link_id := 9 }]
        empty := [], meta_key_count := 1 }
      = (none, { id := 5, root := 0, len := 1, capacity := 10 },
         { keys := [("a", 1)]
           data := [Entry.new "__root:5__", { Entry.new "a" with index := 1, link_id := 9 }]
           empty := [], meta_key_count := 1 }) :=
  ⟨by decide,
   (c9_remove_mismatch { id := 5, root := 0, len := 1, capacity := 10 } 1
     { keys := [("a", 1)]
       data := [Entry.new "__root:5__", { Entry.new "a" with index := 1, link_id := 9 }]
       empty := [], meta_key_count := 1 } (by decide)).1⟩

/-! ## Theorems: TinyLFU size accounting (toward C3) -/

namespace Wtlfu

/-- lruInsert never touches size, capacity or the main lists. -/
theorem lruInsert_fields (t : TinyLfu) (es : EntriesT) (k : Nat) :
    (lruInsert t es k).1.size = t.size ∧ (lruInsert t es k).1.capacity = t.capacity := by
  exact ⟨rfl, rfl⟩

/-- slruInsert never touches size or capacity. -/
theorem slruInsert_fields (t : TinyLfu) (es : EntriesT) (k : Nat) :
    (slruInsert t es k).1.size = t.size ∧ (slruInsert t es k).1.capacity = t.capacity := by
  unfold slruInsert
  split
  · exact ⟨rfl, rfl⟩
  · split
    · split <;> exact ⟨rfl, rfl⟩
    · exact ⟨rfl, rfl⟩

/-- lruRemove never touches size or capacity. -/
theorem lruRemove_fields (t : TinyLfu) (es : EntriesT) (k : Nat) :
    (lruRemove t es k).size = t.size ∧ (lruRemove t es k).capacity = t.capacity := by
  unfold lruRemove
  split
  · split <;> exact ⟨rfl, rfl⟩
  · exact ⟨rfl, rfl⟩

/-- slruRemove never touches size or capacity. -/
theorem slruRemove_fields (t : TinyLfu) (es : EntriesT) (k : Nat) (t1 : TinyLfu)
    (h : slruRemove t es k = some t1) :
    t1.size = t.size ∧ t1.capacity = t.capacity := by
  unfold slruRemove at h
  split at h
  · cases h; exact ⟨rfl, rfl⟩
  · split at h
    · cases h; exact ⟨rfl, rfl⟩
    · split at h
      · cases h; exact ⟨rfl, rfl⟩
      · cases h; exact ⟨rfl, rfl⟩
      · cases h


/-- TinyLfu::remove decrements size by one and never touches capacity. -/
theorem tlfuRemove_fields (t : TinyLfu) (es : EntriesT) (k : Nat) (t1 : TinyLfu)
    (h : tlfuRemove t es k = some t1) :
    t1.size + 1 = t.size ∧ t1.capacity = t.capacity := by
  unfold tlfuRemove at h
  split at h
  · cases h
  · split at h
    · cases h
    · rename_i e he t0 ht0
      split at h
      · cases h
      · rename_i hsz
        cases h
        have hfc : t0.size = t.size ∧ t0.capacity = t.capacity := by
          split at ht0
          · cases ht0; exact ⟨rfl, rfl⟩
          · cases ht0; exact ⟨(lruRemove_fields t es k).1, (lruRemove_fields t es k).2⟩
          · exact slruRemove_fields t es k t0 ht0
          · exact slruRemove_fields t es k t0 ht0
          · cases ht0
        refine ⟨?_, hfc.2⟩
        show t0.size - 1 + 1 = t.size
        have h1 := hfc.1
        omega

/-- evictKey preserves capacity. -/
theorem evictKey_fields (t : TinyLfu) (es : EntriesT) (key ev : Option Nat)
    (t1 : TinyLfu) (ev1 : Option Nat) (h : evictKey t es key ev = some (t1, ev1)) :
    t1.capacity = t.capacity := by
  unfold evictKey at h
  split at h
  · cases h; rfl
  · split at h
    · cases h; rfl
    · split at h
      · cases h
      · rename_i hrem
        cases h
        exact (tlfuRemove_fields _ _ _ _ hrem).2

/-- One evict_from_main step preserves capacity. -/
theorem evictMainStep_capacity (t : TinyLfu) (es : EntriesT) (vQ cQ : Nat)
    (victim candidate evicted : Option Nat) (admitO : Nat → Nat → Bool)
    (t1 : TinyLfu) (vQ1 cQ1 : Nat) (v1 c1 ev1 : Option Nat)
    (h : evictMainStep t es vQ cQ victim candidate evicted admitO
      = some (t1, vQ1, cQ1, v1, c1, ev1)) :
    t1.capacity = t.capacity := by
  simp only [evictMainStep] at h
  split at h
  · cases h; rfl
  · split at h
    · cases h; rfl
    · split at h
      · split at h
        · cases h
        · split at h
          · cases h
          · cases h
            exact evictKey_fields _ _ _ _ _ _ (by assumption)
      · split at h
        · split at h
          · cases h
          · split at h
            · cases h
            · cases h
              exact evictKey_fields _ _ _ _ _ _ (by assumption)
        · split at h
          · split at h
            · cases h
            · split at h
              · cases h
              · cases h
                exact evictKey_fields _ _ _ _ _ _ (by assumption)
          · split at h
            · split at h
              · split at h
                · cases h
                · split at h
                  · cases h
                  · split at h
                    · cases h
                    · cases h
                      exact evictKey_fields _ _ _ _ _ _ (by assumption)
              · split at h
                · cases h
                · split at h
                  · cases h
                  · cases h
                    exact evictKey_fields _ _ _ _ _ _ (by assumption)
            · cases h

/-- When evict_from_main's loop returns, size is at most capacity, and
capacity is what it started with. -/
theorem evictMainLoop_bound (fuel : Nat) :
    ∀ t es vQ cQ victim candidate evicted admitO t1 ev1,
      evictMainLoop fuel t es vQ cQ victim candidate evicted admitO = some (t1, ev1) →
      t1.size ≤ t1.capacity ∧ t1.capacity = t.capacity := by
  induction fuel with
  | zero =>
    intro t es vQ cQ victim candidate evicted admitO t1 ev1 h
    unfold evictMainLoop at h
    split at h
    · cases h
    · rename_i hle
      cases h
      exact ⟨Nat.le_of_not_lt hle, rfl⟩
  | succ n ih =>
    intro t es vQ cQ victim candidate evicted admitO t1 ev1 h
    unfold evictMainLoop at h
    split at h
    · split at h
      · cases h
      · rename_i hstep
        have h2 := ih _ _ _ _ _ _ _ _ _ _ h
        exact ⟨h2.1, h2.2.trans
          (evictMainStep_capacity _ _ _ _ _ _ _ _ _ _ _ _ _ _ hstep)⟩
    · rename_i hle
      cases h
      exact ⟨Nat.le_of_not_lt hle, rfl⟩

/-- demote_from_protected never touches size or capacity. -/
theorem demoteLoop_fields (fuel : Nat) :
    ∀ t es t1 es1, demoteLoop fuel t es = some (t1, es1) →
      t1.size = t.size ∧ t1.capacity = t.capacity := by
  induction fuel with
  | zero =>
    intro t es t1 es1 h
    unfold demoteLoop at h
    split at h
    · cases h
    · cases h; exact ⟨rfl, rfl⟩
  | succ n ih =>
    intro t es t1 es1 h
    simp only [demoteLoop] at h
    split at h
    · split at h
      · split at h
        · have h2 := ih _ _ _ _ h
          exact ⟨h2.1.trans (slruInsert_fields _ _ _).1,
                 h2.2.trans (slruInsert_fields _ _ _).2⟩
        · have h2 := ih _ _ _ _ h
          exact ⟨h2.1, h2.2⟩
      · cases h
    · cases h; exact ⟨rfl, rfl⟩

/-- increase_window's loop never touches size or capacity. -/
theorem increaseLoop_fields (fuel : Nat) :
    ∀ amount t es a1 t1 es1, increaseLoop fuel amount t es = some (a1, t1, es1) →
      t1.size = t.size ∧ t1.capacity = t.capacity := by
  induction fuel with
  | zero =>
    intro amount t es a1 t1 es1 h
    unfold increaseLoop at h
    split at h
    · cases h; exact ⟨rfl, rfl⟩
    · split at h
      · cases h; exact ⟨rfl, rfl⟩
      · cases h
  | succ n ih =>
    intro amount t es a1 t1 es1 h
    simp only [increaseLoop] at h
    split at h
    · cases h; exact ⟨rfl, rfl⟩
    · split at h
      · cases h; exact ⟨rfl, rfl⟩
      · split at h
        · split at h
          · cases h
          · have h2 := ih _ _ _ _ _ _ h
            exact ⟨h2.1.trans ((lruInsert_fields _ _ _).1.trans
                     (slruRemove_fields _ _ _ _ (by assumption)).1),
                   h2.2.trans ((lruInsert_fields _ _ _).2.trans
                     (slruRemove_fields _ _ _ _ (by assumption)).2)⟩
        · exact ih _ _ _ _ _ _ h

/-- decrease_window's loop never touches size or capacity. -/
theorem decreaseLoop_fields (fuel : Nat) :
    ∀ amount t es a1 t1 es1, decreaseLoop fuel amount t es = some (a1, t1, es1) →
      t1.size = t.size ∧ t1.capacity = t.capacity := by
  induction fuel with
  | zero =>
    intro amount t es a1 t1 es1 h
    unfold decreaseLoop at h
    split at h
    · cases h; exact ⟨rfl, rfl⟩
    · split at h
      · cases h; exact ⟨rfl, rfl⟩
      · cases h
  | succ n ih =>
    intro amount t es a1 t1 es1 h
    simp only [decreaseLoop] at h
    split at h
    · cases h; exact ⟨rfl, rfl⟩
    · split at h
      · cases h; exact ⟨rfl, rfl⟩
      · split at h
        · have h2 := ih _ _ _ _ _ _ h
          exact ⟨h2.1.trans ((slruInsert_fields _ _ _).1.trans
                   (lruRemove_fields _ _ _).1),
                 h2.2.trans ((slruInsert_fields _ _ _).2.trans
                   (lruRemove_fields _ _ _).2)⟩
        · exact ih _ _ _ _ _ _ h

/-- resize_window never touches size or capacity. -/
theorem resizeWindow_fields (t : TinyLfu) (es : EntriesT) (t1 : TinyLfu) (es1 : EntriesT)
    (h : resizeWindow t es = some (t1, es1)) :
    t1.size = t.size ∧ t1.capacity = t.capacity := by
  simp only [resizeWindow] at h
  split at h
  · cases h
  · rename_i t2 es2 hdem
    split at h
    · cases h
    · rename_i t4 es4 hnext
      cases h
      have hd := demoteLoop_fields _ _ _ _ _ hdem
      have hn : t4.size = t2.size ∧ t4.capacity = t2.capacity := by
        split at hnext
        · split at hnext
          · cases hnext
          · cases hnext
            have h5 := increaseLoop_fields _ _ _ _ _ _ _ (by assumption)
            exact ⟨h5.1, h5.2⟩
        · split at hnext
          · split at hnext
            · cases hnext
            · cases hnext
              have h5 := decreaseLoop_fields _ _ _ _ _ _ _ (by assumption)
              exact ⟨h5.1, h5.2⟩
          · cases hnext; exact ⟨rfl, rfl⟩
      exact ⟨hn.1.trans hd.1, hn.2.trans hd.2⟩

/-- evict_from_window's loop never touches size or capacity. -/
theorem evictWindowLoop_fields (fuel : Nat) :
    ∀ t es first t1 es1 f1, evictWindowLoop fuel t es first = some (t1, es1, f1) →
      t1.size = t.size ∧ t1.capacity = t.capacity := by
  induction fuel with
  | zero =>
    intro t es first t1 es1 f1 h
    unfold evictWindowLoop at h
    split at h
    · cases h
    · cases h; exact ⟨rfl, rfl⟩
  | succ n ih =>
    intro t es first t1 es1 f1 h
    simp only [evictWindowLoop] at h
    split at h
    · split at h
      · split at h
        · have h2 := ih _ _ _ _ _ _ h
          exact ⟨h2.1.trans (slruInsert_fields _ _ _).1,
                 h2.2.trans (slruInsert_fields _ _ _).2⟩
        · have h2 := ih _ _ _ _ _ _ h
          exact ⟨h2.1, h2.2⟩
      · cases h
    · cases h; exact ⟨rfl, rfl⟩

/-- Slru::access never touches size or capacity. -/
theorem slruAccess_fields (t : TinyLfu) (es : EntriesT) (k : Nat)
    (t1 : TinyLfu) (es1 : EntriesT) (h : slruAccess t es k = some (t1, es1)) :
    t1.size = t.size ∧ t1.capacity = t.capacity := by
  unfold slruAccess at h
  split at h
  · cases h; exact ⟨rfl, rfl⟩
  · split at h
    · split at h
      · split at h
        · cases h
        · cases h; exact ⟨rfl, rfl⟩
      · cases h; exact ⟨rfl, rfl⟩
    · split at h
      · cases h
      · cases h; exact ⟨rfl, rfl⟩
    · cases h

/-- The insert phase never touches capacity. -/
theorem setInsert_capacity (t : TinyLfu) (es : EntriesT) (k : Nat) :
    (setInsert t es k).1.capacity = t.capacity := by
  unfold setInsert
  split
  · split <;> rfl
  · rfl

/-- When evict_entries returns, size is at most capacity, and capacity is
what it started with. -/
theorem evictEntries_bound (t : TinyLfu) (es : EntriesT) (admitO : Nat → Nat → Bool)
    (t1 : TinyLfu) (es1 : EntriesT) (ev : Option Nat)
    (h : evictEntries t es admitO = some (t1, es1, ev)) :
    t1.size ≤ t1.capacity ∧ t1.capacity = t.capacity := by
  unfold evictEntries at h
  split at h
  · cases h
  · rename_i t2 es2 first hwin
    split at h
    · cases h
    · rename_i t3 ev3 hmain
      cases h
      have hw := evictWindowLoop_fields _ _ _ _ _ _ _ hwin
      have hm := evictMainLoop_bound _ _ _ _ _ _ _ _ _ _ _ hmain
      exact ⟨hm.1, hm.2.trans hw.2⟩

/-- Whenever TinyLfu::set returns, the size is at most the configured
capacity (the eviction loop's exit condition), and capacity is unchanged. -/
theorem tlfuSet_bound (t : TinyLfu) (es : EntriesT) (k : Nat) (amountPre : Int)
    (admitO : Nat → Nat → Bool) (r : TinyLfu × EntriesT × Option Nat)
    (h : tlfuSet t es k amountPre admitO = some r) :
    r.1.size ≤ r.1.capacity ∧ r.1.capacity = t.capacity := by
  simp only [tlfuSet] at h
  split at h
  · cases h
  · rename_i t1 es1 hadapt
    have hcap1 : t1.capacity = t.capacity := by
      split at hadapt
      · exact (resizeWindow_fields _ _ _ _ hadapt).2
      · cases hadapt; rfl
    split at h
    · cases h
    · rename_i t3 es3 hdem
      have hd := demoteLoop_fields _ _ _ _ _ hdem
      have he := evictEntries_bound _ _ _ _ _ _ h
      exact ⟨he.1, he.2.trans (hd.2.trans ((setInsert_capacity t1 es1 k).trans hcap1))⟩

/-- TinyLfu::access never changes size (or capacity). -/
theorem tlfuAccess_size (t : TinyLfu) (es : EntriesT) (k : Nat) (now : Nat)
    (amountPre : Int) (r : TinyLfu × EntriesT)
    (h : tlfuAccess t es k now amountPre = some r) :
    r.1.size = t.size := by
  simp only [tlfuAccess] at h
  split at h
  · cases h
  · rename_i t1 es1 hadapt
    have hsz1 : t1.size = t.size := by
      split at hadapt
      · exact (resizeWindow_fields _ _ _ _ hadapt).1
      · cases hadapt; rfl
    split at h
    · cases h; exact hsz1
    · split at h
      · cases h; exact hsz1
      · split at h
        · cases h; exact hsz1
        · split at h
          · cases h; exact hsz1
          · exact (slruAccess_fields _ _ _ _ _ h).1.trans hsz1
          · exact (slruAccess_fields _ _ _ _ _ h).1.trans hsz1
          · cases h

/-- TinyLfu::remove on a consistently linked entry keeps the size equality:
both size and the total list membership drop by exactly one. -/
theorem tlfuRemove_linked (t : TinyLfu) (es : EntriesT) (k : Nat) (e : WEntry) (i : Nat)
    (hget : entGet es k = some e) (hidx : e.policy_list_index = some i)
    (hmem : (e.policy_list_id = 1 ∧ i ∈ t.window.elems) ∨
            (e.policy_list_id = 2 ∧ i ∈ t.probation.elems) ∨
            (e.policy_list_id = 3 ∧ i ∈ t.protectedL.elems))
    (hsum : t.size = t.window.elems.length + t.probation.elems.length
      + t.protectedL.elems.length) :
    ∃ t2, tlfuRemove t es k = some t2 ∧
      t2.size = t2.window.elems.length + t2.probation.elems.length
        + t2.protectedL.elems.length ∧
      t2.size + 1 = t.size := by
  rcases hmem with ⟨hid, hm⟩ | ⟨hid, hm⟩ | ⟨hid, hm⟩
  · have hpos := List.length_pos_of_mem hm
    have hsz : ¬ t.size = 0 := by omega
    have hrm : lruRemove t es k = { t with window := t.window.remove i } := by
      simp only [lruRemove, hget, hidx]
    refine ⟨{ t with window := t.window.remove i, size := t.size - 1 }, ?_, ?_, ?_⟩
    · simp only [tlfuRemove, hget, hid, hrm]
      rw [if_neg hsz]
    · show t.size - 1 = (t.window.elems.erase i).length + t.probation.elems.length
        + t.protectedL.elems.length
      rw [List.length_erase_of_mem hm]
      omega
    · show t.size - 1 + 1 = t.size
      omega
  · have hpos := List.length_pos_of_mem hm
    have hsz : ¬ t.size = 0 := by omega
    have hrm : slruRemove t es k = some { t with probation := t.probation.remove i } := by
      simp only [slruRemove, hget, hidx, hid]
    refine ⟨{ t with probation := t.probation.remove i, size := t.size - 1 }, ?_, ?_, ?_⟩
    · simp only [tlfuRemove, hget, hid, hrm]
      rw [if_neg hsz]
    · show t.size - 1 = t.window.elems.length + (t.probation.elems.erase i).length
        + t.protectedL.elems.length
      rw [List.length_erase_of_mem hm]
      omega
    · show t.size - 1 + 1 = t.size
      omega
  · have hpos := List.length_pos_of_mem hm
    have hsz : ¬ t.size = 0 := by omega
    have hrm : slruRemove t es k = some { t with protectedL := t.protectedL.remove i } := by
      simp only [slruRemove, hget, hidx, hid]
    refine ⟨{ t with protectedL := t.protectedL.remove i, size := t.size - 1 }, ?_, ?_, ?_⟩
    · simp only [tlfuRemove, hget, hid, hrm]
      rw [if_neg hsz]
    · show t.size - 1 = t.window.elems.length + t.probation.elems.length
        + (t.protectedL.elems.erase i).length
      rw [List.length_erase_of_mem hm]
      omega
    · show t.size - 1 + 1 = t.size
      omega

/-- C3: the claimed TinyLFU invariant, as far as it is true.  The size
counter and the total policy-list membership move in lockstep under
TinyLfu::remove only for entries that are consistently linked
(policy_list_id 1, 2 or 3 with their index in the matching list); whenever
TinyLfu::set returns, size is at most the configured (unchanged) capacity;
TinyLfu::access never changes size.  The claim's final sentence is false:
remove on a policy_list_id-0 entry decrements size while no list changes
(see the counterexample). -/
theorem c3_tlfu_size_accounting :
    (∀ (t : TinyLfu) (es : EntriesT) (k : Nat) (e : WEntry) (i : Nat),
      entGet es k = some e →
      e.policy_list_index = some i →
      ((e.policy_list_id = 1 ∧ i ∈ t.window.elems) ∨
       (e.policy_list_id = 2 ∧ i ∈ t.probation.elems) ∨
       (e.policy_list_id = 3 ∧ i ∈ t.protectedL.elems)) →
      t.size = t.window.elems.length + t.probation.elems.length
        + t.protectedL.elems.length →
      ∃ t2, tlfuRemove t es k = some t2 ∧
        t2.size = t2.window.elems.length + t2.probation.elems.length
          + t2.protectedL.elems.length ∧
        t2.size + 1 = t.size) ∧
    (∀ (t : TinyLfu) (es : EntriesT) (k : Nat) (amountPre : Int)
      (admitO : Nat → Nat → Bool) (r : TinyLfu × EntriesT × Option Nat),
      tlfuSet t es k amountPre admitO = some r →
      r.1.size ≤ r.1.capacity ∧ r.1.capacity = t.capacity) ∧
    (∀ (t : TinyLfu) (es : EntriesT) (k now : Nat) (amountPre : Int)
      (r : TinyLfu × EntriesT),
      tlfuAccess t es k now amountPre = some r →
      r.1.size = t.size) :=
  ⟨tlfuRemove_linked, tlfuSet_bound, tlfuAccess_size⟩

set_option maxRecDepth 20000 in
/-- C3 counterexample: from a fresh TinyLfu(2) holding one set key, remove
on a second, present but never-set entry (policy_list_id 0) yields
size = 0 while the window still holds one entry: the equality
size = |window| + |probation| + |protected| is broken (0 against 1). -/
theorem c3_remove_id0_counterexample :
    ((tlfuSet (TinyLfu.new 2) [(1, WEntry.new), (2, WEntry.new)] 1 0
        (fun _ _ => false)).bind
      (fun r => (tlfuRemove r.1 r.2.1 2).map
        (fun t2 => (t2.size,
          t2.window.elems.length + t2.probation.elems.length
            + t2.protectedL.elems.length))))
      = some (0, 1) := by decide

set_option maxRecDepth 20000 in
/-- Concrete instances for the three clauses: removing the one linked window
entry of a one-element TinyLfu(2) state, a set on a fresh TinyLfu(2), and an
access touching the window. -/
theorem c3_tlfu_size_accounting_witness :
    (∃ t2, tlfuRemove ⟨1, 2, ⟨[7], 1⟩, ⟨[], 1⟩, ⟨[], 0⟩, 1, 0, 1, 10, 0⟩
        [(7, ⟨1, some 7, 0⟩)] 7 = some t2 ∧
      t2.size = t2.window.elems.length + t2.probation.elems.length
        + t2.protectedL.elems.length ∧
      t2.size + 1 = (⟨1, 2, ⟨[7], 1⟩, ⟨[], 1⟩, ⟨[], 0⟩, 1, 0, 1, 10, 0⟩ : TinyLfu).size) ∧
    ((⟨1, 2, ⟨[1], 1⟩, ⟨[], 1⟩, ⟨[], 0⟩, 1, 0, 1, 640, 0⟩ : TinyLfu).size
        ≤ (⟨1, 2, ⟨[1], 1⟩, ⟨[], 1⟩, ⟨[], 0⟩, 1, 0, 1, 640, 0⟩ : TinyLfu).capacity ∧
      (⟨1, 2, ⟨[1], 1⟩, ⟨[], 1⟩, ⟨[], 0⟩, 1, 0, 1, 640, 0⟩ : TinyLfu).capacity
        = (TinyLfu.new 2).capacity) ∧
    ((⟨1, 2, ⟨[7], 1⟩, ⟨[], 1⟩, ⟨[], 0⟩, 1, 0, 1, 10, 0⟩ : TinyLfu).size
        = (⟨1, 2, ⟨[7], 1⟩, ⟨[], 1⟩, ⟨[], 0⟩, 1, 0, 1, 10, 0⟩ : TinyLfu).size) :=
  ⟨c3_tlfu_size_accounting.1 _ _ 7 ⟨1, some 7, 0⟩ 7 (by decide) (by decide)
      (Or.inl ⟨by decide, by decide⟩) (by decide),
   c3_tlfu_size_accounting.2.1 (TinyLfu.new 2) [(1, WEntry.new)] 1 0 (fun _ _ => false)
      ⟨⟨1, 2, ⟨[1], 1⟩, ⟨[], 1⟩, ⟨[], 0⟩, 1, 0, 1, 640, 0⟩, [(1, ⟨1, some 1, 0⟩)], none⟩
      (by decide),
   c3_tlfu_size_accounting.2.2 ⟨1, 2, ⟨[7], 1⟩, ⟨[], 1⟩, ⟨[], 0⟩, 1, 0, 1, 10, 0⟩
      [(7, ⟨1, some 7, 0⟩)] 7 0 0
      ⟨⟨1, 2, ⟨[7], 1⟩, ⟨[], 1⟩, ⟨[], 0⟩, 1, 0, 1, 10, 0⟩, [(7, ⟨1, some 7, 0⟩)]⟩
      (by decide)⟩

end Wtlfu

/-! ## Theorems: timer wheel advance tick granularity (C2) -/

/-- Updating an entry with an expire-preserving function preserves every
entry's expire. -/
theorem entryAt_updateEntry_expire (m : MetaData) (i : Nat) (f : Entry → Entry)
    (hf : ∀ e, (f e).expire = e.expire) (j : Nat) :
    ((m.updateEntry i f).entryAt j).expire = (m.entryAt j).expire := by
  by_cases hij : i = j
  · subst hij
    by_cases hlen : i < m.data.length
    · rw [m.entryAt_updateEntry_self i f hlen, hf]
    · have h1 : ∀ v : Entry, (m.data.set i v)[i]? = none := fun v => by
        rw [List.getElem?_eq_none_iff]
        simpa using Nat.le_of_not_lt hlen
      have h2 : m.data[i]? = none := by
        rw [List.getElem?_eq_none_iff]
        exact Nat.le_of_not_lt hlen
      simp [MetaData.updateEntry, MetaData.entryAt, List.getD_eq_getElem?_getD, h1, h2]
  · rw [m.entryAt_updateEntry_ne i j f hij]

/-- A foldl preserves any invariant its step preserves. -/
theorem foldl_preserve {α β : Type} (P : β → Prop) (f : β → α → β)
    (hf : ∀ b a, P b → P (f b a)) : ∀ (l : List α) (b : β), P b → P (l.foldl f b) := by
  intro l
  induction l with
  | nil => intro b hb; exact hb
  | cons x xs ih => intro b hb; exact ih _ (hf b x hb)

namespace TimerWheelState

/-- deschedule does not move the clock. -/
theorem deschedule_nanos (tw : TimerWheelState) (m : MetaData) (i : Nat) :
    (deschedule tw m i).1.nanos = tw.nanos := by
  simp only [deschedule]
  split <;> rfl

/-- schedule does not move the clock. -/
theorem schedule_nanos (tw : TimerWheelState) (m : MetaData) (i : Nat) :
    (schedule tw m i).1.nanos = tw.nanos := by
  simp only [schedule]
  split
  · exact deschedule_nanos tw m i
  · exact deschedule_nanos tw m i

/-- deschedule preserves every entry's expire. -/
theorem deschedule_expire (tw : TimerWheelState) (m : MetaData) (i j : Nat) :
    (((deschedule tw m i).2).entryAt j).expire = (m.entryAt j).expire := by
  simp only [deschedule]
  split
  · refine entryAt_updateEntry_expire m i _ ?_ j
    intro e
    rfl
  · rfl

/-- schedule preserves every entry's expire. -/
theorem schedule_expire (tw : TimerWheelState) (m : MetaData) (i j : Nat) :
    (((schedule tw m i).2).entryAt j).expire = (m.entryAt j).expire := by
  simp only [schedule]
  split
  · refine Eq.trans (entryAt_updateEntry_expire (deschedule tw m i).2 i _ ?_ j)
      (deschedule_expire tw m i j)
    intro e
    rfl
  · exact deschedule_expire tw m i j

/-- setBucket does not move the clock. -/
theorem setBucket_nanos (tw : TimerWheelState) (t s : Nat) (b : List Nat) :
    (tw.setBucket t s b).nanos = tw.nanos := rfl

/-- One bucket sweep does not move the clock. -/
theorem expireBucket_nanos {σ : Type} (premove : Nat → σ → σ) (t s : Nat)
    (st : AdvSt σ) : (expireBucket premove t s st).1.nanos = st.1.nanos := by
  simp only [expireBucket]
  refine foldl_preserve (fun acc : TimerWheelState × MetaData => acc.1.nanos = st.1.nanos)
    _ ?_ _ _ ?_
  · intro b a hb
    exact (schedule_nanos b.1 b.2 a).trans hb
  · exact foldl_preserve
      (fun acc : TimerWheelState × MetaData × σ => acc.1.nanos = st.1.nanos) _
      (fun b a hb => (deschedule_nanos b.1 b.2.1 a).trans hb) _ _ rfl

/-- One bucket sweep preserves every entry's expire. -/
theorem expireBucket_expire {σ : Type} (premove : Nat → σ → σ) (t s : Nat)
    (st : AdvSt σ) (j : Nat) :
    (((expireBucket premove t s st).2.1).entryAt j).expire
      = ((st.2.1).entryAt j).expire := by
  simp only [expireBucket]
  refine foldl_preserve (fun acc : TimerWheelState × MetaData =>
      ((acc.2).entryAt j).expire = ((st.2.1).entryAt j).expire) _ ?_ _ _ ?_
  · intro b a hb
    exact (schedule_expire b.1 b.2 a j).trans hb
  · exact foldl_preserve (fun acc : TimerWheelState × MetaData × σ =>
        ((acc.2.1).entryAt j).expire = ((st.2.1).entryAt j).expire) _
      (fun b a hb => (deschedule_expire b.1 b.2.1 a j).trans hb) _ _ rfl

/-- One bucket sweep reports exactly the bucket members that are expired at
the wheel clock, keyed from the pre-state. -/
theorem expireBucket_sink {σ : Type} (premove : Nat → σ → σ) (t s : Nat)
    (st : AdvSt σ) :
    (expireBucket premove t s st).2.2.2
      = st.2.2.2 ++ ((st.1.bucket t s).filter
          (fun i => ((st.2.1).entryAt i).expire ≤ st.1.nanos)).map
          (fun i => (((st.2.1).entryAt i).key, i)) := by
  simp only [expireBucket, List.partition_eq_filter_filter]

/-- The advance invariant: the wheel clock reads `now` and every reported
(key, index) pair is expired at `now` in the current arena. -/
def SinkSound {σ : Type} (now : Nat) (st : AdvSt σ) : Prop :=
  st.1.nanos = now ∧ ∀ p ∈ st.2.2.2, (((st.2.1).entryAt p.2).expire ≤ now)

/-- One bucket sweep preserves the advance invariant. -/
theorem expireBucket_sinkSound {σ : Type} (premove : Nat → σ → σ) (t s now : Nat)
    (st : AdvSt σ) (h : SinkSound now st) :
    SinkSound now (expireBucket premove t s st) := by
  obtain ⟨hn, hs⟩ := h
  refine ⟨(expireBucket_nanos premove t s st).trans hn, ?_⟩
  intro p hp
  rw [expireBucket_expire premove t s st p.2]
  rw [expireBucket_sink premove t s st] at hp
  rcases List.mem_append.mp hp with hold | hnew
  · exact hs p hold
  · obtain ⟨i, hi, hpi⟩ := List.mem_map.mp hnew
    have hfil := List.mem_filter.mp hi
    have hexp : ((st.2.1).entryAt i).expire ≤ st.1.nanos := by
      simpa using hfil.2
    subst hpi
    exact le_of_le_of_eq hexp hn

/-- One tier sweep preserves the advance invariant. -/
theorem expireTier_sinkSound {σ : Type} (premove : Nat → σ → σ) (t prevTicks delta now : Nat)
    (st : AdvSt σ) (h : SinkSound now st) :
    SinkSound now (expireTier premove t prevTicks delta st) := by
  unfold expireTier
  exact foldl_preserve (SinkSound now) _
    (fun b a hb => expireBucket_sinkSound premove _ _ now b hb) _ _ h

/-- The tier loop preserves the advance invariant. -/
theorem advanceLoop_sinkSound {σ : Type} (premove : Nat → σ → σ) (previous now : Nat) :
    ∀ (ts : List Nat) (st : AdvSt σ), SinkSound now st →
      SinkSound now (advanceLoop premove previous now ts st) := by
  intro ts
  induction ts with
  | nil => intro st h; exact h
  | cons t rest ih =>
    intro st h
    simp only [advanceLoop]
    split
    · exact h
    · exact ih _ (expireTier_sinkSound premove t _ _ now st h)

/-- Every entry advance reports through the sink is expired at the new clock
value, read in the arena advance returns. -/
theorem advance_sink_expired {σ : Type} (tw : TimerWheelState) (m : MetaData) (pol : σ)
    (premove : Nat → σ → σ) (now : Nat) (p : String × Nat)
    (hp : p ∈ (advance tw m pol premove now).2.2.2) :
    (((advance tw m pol premove now).2.1).entryAt p.2).expire ≤ now := by
  have h := advanceLoop_sinkSound premove tw.nanos now [0, 1, 2, 3, 4]
    ({ tw with nanos := now }, m, pol, []) ⟨rfl, by intro p hp; cases hp⟩
  exact h.2 p hp

/-- advance with a target in the same tier-0 tick does nothing but move the
clock: the tier loop breaks before sweeping any bucket. -/
theorem advance_same_tick {σ : Type} (tw : TimerWheelState) (m : MetaData) (pol : σ)
    (premove : Nat → σ → σ) (now : Nat)
    (h : now >>> 30 ≤ tw.nanos >>> 30) :
    advance tw m pol premove now = ({ tw with nanos := now }, m, pol, []) := by
  simp only [advance, advanceLoop]
  rw [show TimerWheel.shift.getD 0 0 = 30 from rfl]
  rw [if_pos h]

/-- C2: tick granularity of TimerWheel::advance.  A target inside the same
tier-0 tick as the wheel's previous nanos makes advance a pure clock move:
no bucket is examined and nothing is reported, so entries with
0 < expire <= T can survive advance(T) (the claimed expiry soundness
fails; see the counterexample).  What does hold: each bucket sweep reports
exactly the bucket members whose expire is at or before the wheel clock,
and every (key, index) pair advance reports through the sink is expired at
the new clock value in the arena advance returns. -/
theorem c2_advance_tick_granularity :
    (∀ (σ : Type) (tw : TimerWheelState) (m : MetaData) (pol : σ)
       (premove : Nat → σ → σ) (now : Nat),
      now >>> 30 ≤ tw.nanos >>> 30 →
      advance tw m pol premove now = ({ tw with nanos := now }, m, pol, [])) ∧
    (∀ (σ : Type) (premove : Nat → σ → σ) (t s : Nat) (st : AdvSt σ),
      (expireBucket premove t s st).2.2.2
        = st.2.2.2 ++ ((st.1.bucket t s).filter
            (fun i => ((st.2.1).entryAt i).expire ≤ st.1.nanos)).map
            (fun i => (((st.2.1).entryAt i).key, i))) ∧
    (∀ (σ : Type) (tw : TimerWheelState) (m : MetaData) (pol : σ)
       (premove : Nat → σ → σ) (now : Nat) (p : String × Nat),
      p ∈ (advance tw m pol premove now).2.2.2 →
      (((advance tw m pol premove now).2.1).entryAt p.2).expire ≤ now) :=
  ⟨fun _ tw m pol premove now h => advance_same_tick tw m pol premove now h,
   fun _ premove t s st => expireBucket_sink premove t s st,
   fun _ tw m pol premove now p hp => advance_sink_expired tw m pol premove now p hp⟩

set_option maxRecDepth 40000 in
/-- C2 counterexample: an entry "a" with expire = 100 scheduled on a fresh
wheel at nanos 0 survives advance(200) untouched -- the sink stays empty,
bucket (0, 0) still holds it, its expire is 100 with 0 < 100 <= 200, and it
is still in the key map -- because 200 lies in tier-0 tick 0, the same tick
as the previous clock, so the tier loop breaks at once. -/
theorem c2_same_tick_survivor_counterexample :
    (fun st : AdvSt Unit =>
        (st.2.2.2, st.1.bucket 0 0, ((st.2.1).entryAt 0).expire, (st.2.1).get "a"))
      (advance
        (schedule
          { nanos := 0, wheel := TimerWheel.buckets.map (fun c => List.replicate c []) }
          { keys := [("a", 0)], data := [{ Entry.new "a" with expire := 100 }],
            empty := [], meta_key_count := 0 } 0).1
        (schedule
          { nanos := 0, wheel := TimerWheel.buckets.map (fun c => List.replicate c []) }
          { keys := [("a", 0)], data := [{ Entry.new "a" with expire := 100 }],
            empty := [], meta_key_count := 0 } 0).2
        () (fun _ s => s) 200)
      = ([], [0], 100, some 0) ∧ (0 : Nat) < 100 ∧ (100 : Nat) ≤ 200 := by
  refine ⟨by decide, by decide, by decide⟩

set_option maxRecDepth 40000 in
/-- Concrete instances: a same-tick advance on an empty wheel is a pure
clock move, and the scheduled entry of the counterexample state is reported
and expired when advance crosses into tick 1 (now = 2^30 + 1). -/
theorem c2_advance_tick_granularity_witness :
    (advance { nanos := 5, wheel := [] } (MetaData.new 0) () (fun _ s => s) 7
      = ({ nanos := 7, wheel := [] }, MetaData.new 0, (), [])) ∧
    ((((advance
        (schedule
          { nanos := 0, wheel := TimerWheel.buckets.map (fun c => List.replicate c []) }
          { keys := [("a", 0)], data := [{ Entry.new "a" with expire := 100 }],
            empty := [], meta_key_count := 0 } 0).1
        (schedule
          { nanos := 0, wheel := TimerWheel.buckets.map (fun c => List.replicate c []) }
          { keys := [("a", 0)], data := [{ Entry.new "a" with expire := 100 }],
            empty := [], meta_key_count := 0 } 0).2
        () (fun _ s => s) 1073741825).2.1).entryAt (("a", 0) : String × Nat).2).expire
      ≤ 1073741825) :=
  ⟨c2_advance_tick_granularity.1 Unit { nanos := 5, wheel := [] } (MetaData.new 0) ()
      (fun _ s => s) 7 (by decide),
   c2_advance_tick_granularity.2.2 Unit
      (schedule
        { nanos := 0, wheel := TimerWheel.buckets.map (fun c => List.replicate c []) }
        { keys := [("a", 0)], data := [{ Entry.new "a" with expire := 100 }],
          empty := [], meta_key_count := 0 } 0).1
      (schedule
        { nanos := 0, wheel := TimerWheel.buckets.map (fun c => List.replicate c []) }
        { keys := [("a", 0)], data := [{ Entry.new "a" with expire := 100 }],
          empty := [], meta_key_count := 0 } 0).2
      () (fun _ s => s) 1073741825 ("a", 0) (by decide)⟩

end TimerWheelState

end Theine
